import Mathlib

/-!
# Verification of the twentyfour segment-consistency engine

Shallow embedding of the repository's core logic:

* `App`   — the in-app interval model: `rangeDuration`, `isOverlapping`,
  `upsertSlots`, `nextValidAutoEnd`, the `saveCurrentSlot` flow
  (src/lib/time.ts, src/App.tsx) and the localStorage-backed
  `loadTimeline` (src/lib/storage.ts).
* `Vault` — the flat-file codec and match/patch engine of the dev-server
  vault plugin (vite.config.ts): `parseSection`, `parseBlock`, `slotLine`,
  `buildMarkdown`, `matchesWhere` and the generic create/update/delete
  rewrite of a day document.

JavaScript numbers appearing as minute values are modelled as `Int` in the
app layer (they are produced by arithmetic that can go negative) and as
`Nat` in the codec layer (they are produced by digit parsing).  JavaScript
truthiness tests on strings and numbers (`if (ignoreId && ...)`,
`!payload.limit`) are translated explicitly: the empty string and the
number `0` are falsy.
-/

namespace App

inductive Mode where
  | plan
  | retrospect
deriving DecidableEq, Repr

structure DayRef where
  isoDate : String
  timezone : String
deriving DecidableEq, Repr

structure TimeSlot where
  id : String
  groupId : Option String
  startMinute : Int
  endMinute : Int
  label : String
  notes : String
  createdAt : String
  updatedAt : String
deriving DecidableEq, Repr

structure DraftRange where
  startMinute : Int
  endMinute : Int
deriving DecidableEq, Repr

def MINUTES_PER_DAY : Int := 24 * 60

/-- src/lib/time.ts `rangeDuration`: `diff > 0 ? diff : MINUTES_PER_DAY + diff`. -/
def rangeDuration (r : DraftRange) : Int :=
  let diff := r.endMinute - r.startMinute
  if diff > 0 then diff else MINUTES_PER_DAY + diff

/-- The skip test inside `isOverlapping`: `if (ignoreId && slot.id === ignoreId)`.
JS truthiness: an `undefined` or empty-string `ignoreId` never skips. -/
def slotSkipped (ignoreId : Option String) (s : TimeSlot) : Bool :=
  match ignoreId with
  | some i => i != "" && s.id == i
  | none => false

/-- src/lib/time.ts `isOverlapping`. -/
def isOverlapping (slots : List TimeSlot) (startMinute endMinute : Int)
    (ignoreId : Option String) : Bool :=
  slots.any fun s =>
    !slotSkipped ignoreId s &&
      decide (startMinute < s.endMinute) && decide (endMinute > s.startMinute)

def slotLE (a b : TimeSlot) : Prop := a.startMinute ≤ b.startMinute

instance : DecidableRel slotLE :=
  fun a b => inferInstanceAs (Decidable (a.startMinute ≤ b.startMinute))

instance : IsTotal TimeSlot slotLE := ⟨fun a b => Int.le_total a.startMinute b.startMinute⟩

instance : IsTrans TimeSlot slotLE := ⟨fun _ _ _ h h' => le_trans h h'⟩

/-- src/lib/time.ts `sortSlots`: stable sort by `startMinute` (JS `Array.sort` is stable). -/
def sortSlots (slots : List TimeSlot) : List TimeSlot :=
  List.insertionSort slotLE slots

/-- src/App.tsx `upsertSlots`.  `replaceId ? slots.filter(...) : [...slots]` —
an empty-string `replaceId` is falsy, so it filters nothing. -/
def upsertSlots (slots additions : List TimeSlot) (replaceId : Option String) :
    List TimeSlot :=
  let kept := match replaceId with
    | some rid => if rid = "" then slots else slots.filter fun s => s.id ≠ rid
    | none => slots
  sortSlots (kept ++ additions)

/-- src/App.tsx `nextValidAutoEnd`. -/
def nextValidAutoEnd (slots : List TimeSlot) (startMinute duration : Int) : Option Int :=
  let candidate := startMinute + duration
  if candidate > 1440 then none
  else if isOverlapping slots startMinute candidate none then none
  else some candidate

/-- src/lib/storage.ts `newSlot`, with the random id and clock passed in. -/
def newSlot (startMinute endMinute : Int) (label notes : String)
    (groupId : Option String) (id now : String) : TimeSlot :=
  { id := id, groupId := groupId, startMinute := startMinute, endMinute := endMinute,
    label := label, notes := notes, createdAt := now, updatedAt := now }

/-- The state read by `saveCurrentSlot`: the active day's slots, the next day's
slots (for the midnight split), the draft range and the slot being edited. -/
structure SaveInput where
  activeSlots : List TimeSlot
  nextSlots : List TimeSlot
  draftStartMinute : Int
  draftEndMinute : Int
  editingSlotId : Option String
deriving DecidableEq, Repr

structure SavePayload where
  label : String
  notes : String
deriving DecidableEq, Repr

/-- The identifiers and timestamp that `createId()` / `new Date()` would produce. -/
structure FreshIds where
  slotIdA : String
  slotIdB : String
  groupId : String
  now : String
deriving DecidableEq, Repr

/-- Observable outcome of one `saveCurrentSlot` call: the two timelines after the
call, whether each was persisted, the error message set (none on success), and
the draft range after the call. -/
structure SaveResult where
  currentSlots : List TimeSlot
  nextSlots : List TimeSlot
  persistedCurrent : Bool
  persistedNext : Bool
  error : Option String
  draftStartMinute : Int
  draftEndMinute : Int
deriving DecidableEq, Repr

/-- An early-`return` after `setError(msg)`: nothing persisted, drafts unchanged. -/
def failResult (st : SaveInput) (msg : String) : SaveResult :=
  { currentSlots := st.activeSlots, nextSlots := st.nextSlots,
    persistedCurrent := false, persistedNext := false, error := some msg,
    draftStartMinute := st.draftStartMinute, draftEndMinute := st.draftEndMinute }

/-- The successful tail of `saveCurrentSlot`: auto-advance the draft
(`newStart = draftEndMinute`; the draft end moves only when
`nextValidAutoEnd` accepts), clear the error, close the sheet. -/
def finishSave (st : SaveInput) (updatedCurrent nextSlots' : List TimeSlot)
    (persistedNext : Bool) (duration : Int) : SaveResult :=
  let newStart := st.draftEndMinute
  let suggested := nextValidAutoEnd updatedCurrent newStart duration
  { currentSlots := updatedCurrent, nextSlots := nextSlots',
    persistedCurrent := true, persistedNext := persistedNext, error := none,
    draftStartMinute := newStart,
    draftEndMinute := suggested.getD st.draftEndMinute }

/-- src/App.tsx `saveCurrentSlot`.  The second revision of the component takes
the range in the payload; it first copies it into the draft state, after which
the logic below is identical with `draftStartMinute`/`draftEndMinute` standing
for the submitted range.  Key ordering fact preserved from the source: on the
split path the current-day timeline is persisted *before* the next-day
overlap check runs. -/
def saveCurrentSlot (st : SaveInput) (p : SavePayload) (f : FreshIds) : SaveResult :=
  if p.label = "" then failResult st "Please add an activity label."
  else
    let duration := rangeDuration ⟨st.draftStartMinute, st.draftEndMinute⟩
    if duration ≤ 0 ∨ duration > 1440 then failResult st "Invalid time range."
    else
      let isSplit := st.draftEndMinute ≤ st.draftStartMinute
      let replaceId := st.editingSlotId
      if isSplit then
        if isOverlapping st.activeSlots st.draftStartMinute 1440 replaceId then
          failResult st "Selected range overlaps an existing segment."
        else
          let slotA := newSlot st.draftStartMinute 1440 p.label p.notes
            (some f.groupId) f.slotIdA f.now
          let updatedCurrent := upsertSlots st.activeSlots [slotA] replaceId
          if isOverlapping st.nextSlots 0 st.draftEndMinute none then
            { currentSlots := updatedCurrent, nextSlots := st.nextSlots,
              persistedCurrent := true, persistedNext := false,
              error := some "Next-day portion overlaps an existing segment.",
              draftStartMinute := st.draftStartMinute,
              draftEndMinute := st.draftEndMinute }
          else
            let slotB := newSlot 0 st.draftEndMinute p.label p.notes
              (some f.groupId) f.slotIdB f.now
            let updatedNext := upsertSlots st.nextSlots [slotB] none
            finishSave st updatedCurrent updatedNext true duration
      else
        if isOverlapping st.activeSlots st.draftStartMinute st.draftEndMinute replaceId then
          failResult st "Selected range overlaps an existing segment."
        else
          let slotC := newSlot st.draftStartMinute st.draftEndMinute p.label p.notes
            none f.slotIdA f.now
          let updatedCurrent := upsertSlots st.activeSlots [slotC] replaceId
          finishSave st updatedCurrent st.nextSlots false duration

structure DayTimeline where
  mode : Mode
  day : DayRef
  slots : List TimeSlot
  updatedAt : String
  schemaVersion : Int
deriving DecidableEq, Repr

def SCHEMA_VERSION : Int := 1

/-- src/lib/storage.ts `emptyTimeline` (timezone and clock passed in). -/
def emptyTimeline (mode : Mode) (isoDate tz now : String) : DayTimeline :=
  { mode := mode, day := ⟨isoDate, tz⟩, slots := [], updatedAt := now,
    schemaVersion := SCHEMA_VERSION }

/-- What `localStorage.getItem` + `JSON.parse` can yield: a string that fails to
parse, or a parsed `DayTimeline` payload. -/
inductive StoredValue where
  | malformed
  | wellFormed (t : DayTimeline)
deriving DecidableEq, Repr

/-- src/lib/storage.ts `loadTimeline`. -/
def loadTimeline (raw : Option StoredValue) (mode : Mode) (isoDate tz now : String) :
    DayTimeline :=
  match raw with
  | none => emptyTimeline mode isoDate tz now
  | some .malformed => emptyTimeline mode isoDate tz now
  | some (.wellFormed t) =>
    if t.schemaVersion ≠ SCHEMA_VERSION then emptyTimeline mode isoDate tz now
    else { t with mode := mode, day := ⟨isoDate, tz⟩, slots := sortSlots t.slots }

lemma slotSkipped_eq_false_iff (ignoreId : Option String) (s : TimeSlot) :
    slotSkipped ignoreId s = false ↔
      ¬∃ i, ignoreId = some i ∧ i ≠ "" ∧ s.id = i := by
  cases ignoreId with
  | none => simp [slotSkipped]
  | some i =>
    simp only [slotSkipped, Bool.and_eq_false_iff, bne_eq_false_iff_eq, beq_eq_false_iff_ne]
    constructor
    · rintro (h | h) ⟨j, hj, hne, hid⟩ <;> cases hj
      · exact hne h
      · exact h hid
    · intro h
      by_cases hi : i = ""
      · exact Or.inl hi
      · exact Or.inr fun hid => h ⟨i, rfl, hi, hid⟩

/-- C3 (amended): `isOverlapping` returns true iff some slot that is not
skipped — a slot is skipped exactly when `ignoreId` is present, non-empty and
equal to the slot's id — satisfies `startMinute < slot.endMinute` and
`endMinute > slot.startMinute`. -/
theorem isOverlapping_spec (slots : List TimeSlot) (s e : Int) (ignoreId : Option String) :
    isOverlapping slots s e ignoreId = true ↔
      ∃ slot ∈ slots, ¬(∃ i, ignoreId = some i ∧ i ≠ "" ∧ slot.id = i) ∧
        s < slot.endMinute ∧ e > slot.startMinute := by
  simp only [isOverlapping, List.any_eq_true, Bool.and_eq_true, Bool.not_eq_true',
    decide_eq_true_eq, slotSkipped_eq_false_iff]
  tauto

/-- A slot whose id is the empty string together with `ignoreId = some ""`:
the code does not skip it (the empty string is falsy), so `isOverlapping`
is true although no slot's id differs from `ignoreId`. -/
def c3Slot : TimeSlot :=
  { id := "", groupId := none, startMinute := 0, endMinute := 10,
    label := "x", notes := "", createdAt := "t", updatedAt := "t" }

/-- C3 counterexample: with `ignoreId = some ""` and a single slot whose id is
`""`, the code reports an overlap even though no slot has an id different from
`ignoreId`, refuting the claim's "some slot whose id differs from ignoreId"
reading at this input. -/
theorem isOverlapping_claim_cex :
    isOverlapping [c3Slot] 0 10 (some "") = true ∧
      ¬∃ slot ∈ [c3Slot], slot.id ≠ "" ∧
        (0 : Int) < slot.endMinute ∧ (10 : Int) > slot.startMinute := by
  constructor
  · decide
  · rintro ⟨slot, hmem, hne, -⟩
    simp only [List.mem_singleton] at hmem
    subst hmem
    exact hne rfl

lemma duration_out_of_range_iff (s e : Int) (hs0 : 0 ≤ s) (hs1 : s ≤ 1440)
    (he0 : 0 ≤ e) (he1 : e ≤ 1440) :
    (rangeDuration ⟨s, e⟩ ≤ 0 ∨ rangeDuration ⟨s, e⟩ > 1440) ↔ (s = 1440 ∧ e = 0) := by
  simp only [rangeDuration, MINUTES_PER_DAY]
  split_ifs with h
  · omega
  · omega

/-- C2 (amended): with the draft minutes in `[0, 1440]` and a non-empty label,
the "Invalid time range." rejection fires exactly at the degenerate draft
`start = 1440, end = 0`; a zero-length draft (`end = start`) instead gets
duration `1440` from `rangeDuration` and is not rejected — it proceeds as a
full-day midnight split. -/
theorem saveCurrentSlot_duration_gate (st : SaveInput) (p : SavePayload) (f : FreshIds)
    (hlabel : p.label ≠ "")
    (hs0 : 0 ≤ st.draftStartMinute) (hs1 : st.draftStartMinute ≤ 1440)
    (he0 : 0 ≤ st.draftEndMinute) (he1 : st.draftEndMinute ≤ 1440) :
    ((saveCurrentSlot st p f).error = some "Invalid time range." ↔
      st.draftStartMinute = 1440 ∧ st.draftEndMinute = 0) ∧
    (st.draftEndMinute = st.draftStartMinute →
      rangeDuration ⟨st.draftStartMinute, st.draftEndMinute⟩ = 1440 ∧
      (saveCurrentSlot st p f).error ≠ some "Invalid time range.") := by
  have herr : (saveCurrentSlot st p f).error = some "Invalid time range." ↔
      (rangeDuration ⟨st.draftStartMinute, st.draftEndMinute⟩ ≤ 0 ∨
        rangeDuration ⟨st.draftStartMinute, st.draftEndMinute⟩ > 1440) := by
    simp only [saveCurrentSlot]
    rw [if_neg hlabel]
    split_ifs with h1 h2 h3 h4 h5 <;>
      simp_all [failResult, finishSave]
  have hiff := duration_out_of_range_iff st.draftStartMinute st.draftEndMinute hs0 hs1 he0 he1
  refine ⟨herr.trans hiff, fun hz => ⟨?_, ?_⟩⟩
  · simp only [rangeDuration, MINUTES_PER_DAY, hz]
    omega
  · intro hcontra
    obtain ⟨h1440, h0⟩ := hiff.mp (herr.mp hcontra)
    omega

def c2St : SaveInput :=
  { activeSlots := [], nextSlots := [], draftStartMinute := 600,
    draftEndMinute := 600, editingSlotId := none }

def c2P : SavePayload := { label := "rest", notes := "" }

def c2F : FreshIds := { slotIdA := "a", slotIdB := "b", groupId := "g", now := "t" }

/-- C2 witness: at the zero-length draft `600 → 600` the duration is `1440`
and the save is not rejected by the duration gate. -/
theorem saveCurrentSlot_duration_gate_witness :
    rangeDuration ⟨c2St.draftStartMinute, c2St.draftEndMinute⟩ = 1440 ∧
      (saveCurrentSlot c2St c2P c2F).error ≠ some "Invalid time range." :=
  (saveCurrentSlot_duration_gate c2St c2P c2F (by decide) (by decide) (by decide)
    (by decide) (by decide)).2 (by decide)

/-- C2 counterexample: a zero-length request (draft end = draft start = 600)
is not rejected: the save succeeds and stores a slot, refuting "a zero-length
request ... is rejected with a validation error ... and no slot is stored". -/
theorem saveCurrentSlot_zero_length_cex :
    (saveCurrentSlot c2St c2P c2F).error = none ∧
      (saveCurrentSlot c2St c2P c2F).persistedCurrent = true ∧
      (saveCurrentSlot c2St c2P c2F).currentSlots ≠ [] := by decide

lemma mem_upsertSlots_additions (slots additions : List TimeSlot) (rid : Option String)
    (a : TimeSlot) (ha : a ∈ additions) : a ∈ upsertSlots slots additions rid := by
  simp only [upsertSlots, sortSlots]
  exact (List.perm_insertionSort slotLE _).mem_iff.mpr (List.mem_append_right _ ha)

lemma finishSave_goal (st : SaveInput) (u n : List TimeSlot) (pn : Bool) (d : Int)
    (hd : 0 < d) :
    (finishSave st u n pn d).draftStartMinute = st.draftEndMinute ∧
    ((finishSave st u n pn d).draftEndMinute = st.draftEndMinute + d ↔
      (st.draftEndMinute + d ≤ 1440 ∧
        isOverlapping (finishSave st u n pn d).currentSlots st.draftEndMinute
          (st.draftEndMinute + d) none = false)) ∧
    (¬(st.draftEndMinute + d ≤ 1440 ∧
        isOverlapping (finishSave st u n pn d).currentSlots st.draftEndMinute
          (st.draftEndMinute + d) none = false) →
      (finishSave st u n pn d).draftEndMinute = st.draftEndMinute) := by
  have hbool : ∀ b : Bool, ¬b = true → b = false := by decide
  have hcur : (finishSave st u n pn d).currentSlots = u := rfl
  have hend : (finishSave st u n pn d).draftEndMinute =
      (nextValidAutoEnd u st.draftEndMinute d).getD st.draftEndMinute := rfl
  rw [hcur, hend]
  refine ⟨rfl, ?_, ?_⟩
  · simp only [nextValidAutoEnd]
    split_ifs with h1 h2
    · simp only [Option.getD_none]
      constructor
      · intro h
        exact absurd h (by omega)
      · rintro ⟨hle, -⟩
        omega
    · simp only [Option.getD_none]
      constructor
      · intro h
        exact absurd h (by omega)
      · rintro ⟨-, hovf⟩
        simp [h2] at hovf
    · simp only [Option.getD_some]
      exact ⟨fun _ => ⟨by omega, hbool _ h2⟩, fun _ => by trivial⟩
  · simp only [nextValidAutoEnd]
    split_ifs with h1 h2
    · intro _
      rfl
    · intro _
      rfl
    · intro hcon
      exact absurd ⟨by omega, hbool _ h2⟩ hcon

/-- C4: after every successful save, the draft start advances to the saved
interval's end, and the draft end becomes `end + duration` exactly when that
candidate is at most `1440` and `[end, end + duration)` does not overlap the
updated current-day timeline; otherwise the draft end is unchanged. -/
theorem saveCurrentSlot_auto_advance (st : SaveInput) (p : SavePayload) (f : FreshIds)
    (hsucc : (saveCurrentSlot st p f).error = none) :
    (saveCurrentSlot st p f).draftStartMinute = st.draftEndMinute ∧
    ((saveCurrentSlot st p f).draftEndMinute =
        st.draftEndMinute + rangeDuration ⟨st.draftStartMinute, st.draftEndMinute⟩ ↔
      (st.draftEndMinute + rangeDuration ⟨st.draftStartMinute, st.draftEndMinute⟩ ≤ 1440 ∧
        isOverlapping (saveCurrentSlot st p f).currentSlots st.draftEndMinute
          (st.draftEndMinute + rangeDuration ⟨st.draftStartMinute, st.draftEndMinute⟩)
          none = false)) ∧
    (¬(st.draftEndMinute + rangeDuration ⟨st.draftStartMinute, st.draftEndMinute⟩ ≤ 1440 ∧
        isOverlapping (saveCurrentSlot st p f).currentSlots st.draftEndMinute
          (st.draftEndMinute + rangeDuration ⟨st.draftStartMinute, st.draftEndMinute⟩)
          none = false) →
      (saveCurrentSlot st p f).draftEndMinute = st.draftEndMinute) := by
  simp only [saveCurrentSlot] at hsucc ⊢
  split_ifs at hsucc ⊢ with h1 h2 h3 h4 h5 h6
  all_goals try exact absurd hsucc (by simp [failResult])
  all_goals exact finishSave_goal st _ _ _ _ (by push_neg at h2; omega)

def c4St : SaveInput :=
  { activeSlots := [], nextSlots := [], draftStartMinute := 540,
    draftEndMinute := 600, editingSlotId := none }

def c4P : SavePayload := { label := "Write", notes := "" }

def c4F : FreshIds := { slotIdA := "a", slotIdB := "b", groupId := "g", now := "t" }

/-- C4 witness: saving `[540, 600)` on an empty day succeeds and the draft
start advances to `600`. -/
theorem saveCurrentSlot_auto_advance_witness :
    (saveCurrentSlot c4St c4P c4F).draftStartMinute = c4St.draftEndMinute :=
  (saveCurrentSlot_auto_advance c4St c4P c4F (by decide)).1

/-- C1 (amended): on a midnight-split save whose next-day portion `[0, end)`
overlaps the next day's timeline, the save fails — the error is reported, the
next-day timeline is untouched and nothing is persisted for day D+1, and the
draft does not advance — but the current-day portion `[start, 1440)` has
already been committed to day D's timeline before the next-day check runs, so
day D is modified. -/
theorem saveCurrentSlot_split_partial_commit (st : SaveInput) (p : SavePayload) (f : FreshIds)
    (hlabel : p.label ≠ "")
    (hdur : ¬(rangeDuration ⟨st.draftStartMinute, st.draftEndMinute⟩ ≤ 0 ∨
        rangeDuration ⟨st.draftStartMinute, st.draftEndMinute⟩ > 1440))
    (hsplit : st.draftEndMinute ≤ st.draftStartMinute)
    (hcur : isOverlapping st.activeSlots st.draftStartMinute 1440 st.editingSlotId = false)
    (hnext : isOverlapping st.nextSlots 0 st.draftEndMinute none = true) :
    (saveCurrentSlot st p f).error = some "Next-day portion overlaps an existing segment." ∧
    (saveCurrentSlot st p f).nextSlots = st.nextSlots ∧
    (saveCurrentSlot st p f).persistedNext = false ∧
    (saveCurrentSlot st p f).persistedCurrent = true ∧
    newSlot st.draftStartMinute 1440 p.label p.notes (some f.groupId) f.slotIdA f.now ∈
      (saveCurrentSlot st p f).currentSlots ∧
    (saveCurrentSlot st p f).draftStartMinute = st.draftStartMinute ∧
    (saveCurrentSlot st p f).draftEndMinute = st.draftEndMinute := by
  simp only [saveCurrentSlot]
  rw [if_neg hlabel, if_neg hdur, if_pos hsplit, if_neg (by simp [hcur]), if_pos hnext]
  refine ⟨rfl, rfl, rfl, rfl, ?_, rfl, rfl⟩
  exact mem_upsertSlots_additions _ _ _ _ (List.mem_singleton.mpr rfl)

def c1Busy : TimeSlot :=
  { id := "n1", groupId := none, startMinute := 0, endMinute := 30,
    label := "busy", notes := "", createdAt := "t", updatedAt := "t" }

def c1St : SaveInput :=
  { activeSlots := [], nextSlots := [c1Busy],
    draftStartMinute := 1380, draftEndMinute := 60, editingSlotId := none }

def c1P : SavePayload := { label := "sleep", notes := "" }

def c1F : FreshIds := { slotIdA := "a", slotIdB := "b", groupId := "g", now := "t" }

/-- C1 witness: the 23:00 → 01:00 split save onto a next day whose `[0, 30)`
is occupied reports the next-day overlap error. -/
theorem saveCurrentSlot_split_partial_commit_witness :
    (saveCurrentSlot c1St c1P c1F).error =
      some "Next-day portion overlaps an existing segment." :=
  (saveCurrentSlot_split_partial_commit c1St c1P c1F (by decide) (by decide) (by decide)
    (by decide) (by decide)).1

/-- C1 counterexample: for the 23:00 → 01:00 split onto a next day with
`[0, 30)` occupied, the save fails yet day D's timeline is modified: the slot
`[1380, 1440)` has been committed, refuting "the current day's timeline is
left unmodified (no slot [start, 1440) is committed on day D)". -/
theorem saveCurrentSlot_split_abort_cex :
    (saveCurrentSlot c1St c1P c1F).error ≠ none ∧
      (saveCurrentSlot c1St c1P c1F).persistedCurrent = true ∧
      newSlot 1380 1440 "sleep" "" (some "g") "a" "t" ∈
        (saveCurrentSlot c1St c1P c1F).currentSlots ∧
      (saveCurrentSlot c1St c1P c1F).currentSlots ≠ c1St.activeSlots := by decide

/-- C9: a missing or unparseable payload, and a payload whose `schemaVersion`
differs from the expected version, all load as a fresh empty timeline for the
requested (mode, date); a payload with the matching version is returned with
its slots sorted ascending by `startMinute` (a permutation of the stored
slots), re-keyed to the requested mode and date. -/
theorem loadTimeline_schema_gate (mode : Mode) (isoDate tz now : String) :
    loadTimeline none mode isoDate tz now = emptyTimeline mode isoDate tz now ∧
    loadTimeline (some .malformed) mode isoDate tz now = emptyTimeline mode isoDate tz now ∧
    (∀ t : DayTimeline, t.schemaVersion ≠ SCHEMA_VERSION →
      loadTimeline (some (.wellFormed t)) mode isoDate tz now =
        emptyTimeline mode isoDate tz now) ∧
    (∀ t : DayTimeline, t.schemaVersion = SCHEMA_VERSION →
      loadTimeline (some (.wellFormed t)) mode isoDate tz now =
        { t with mode := mode, day := ⟨isoDate, tz⟩, slots := sortSlots t.slots } ∧
      (loadTimeline (some (.wellFormed t)) mode isoDate tz now).slots.Sorted slotLE ∧
      (loadTimeline (some (.wellFormed t)) mode isoDate tz now).slots.Perm t.slots) := by
  refine ⟨rfl, rfl, fun t ht => ?_, fun t ht => ?_⟩
  · simp [loadTimeline, ht]
  · have hload : loadTimeline (some (.wellFormed t)) mode isoDate tz now =
        { t with mode := mode, day := ⟨isoDate, tz⟩, slots := sortSlots t.slots } := by
      simp [loadTimeline, ht]
    refine ⟨hload, ?_, ?_⟩
    · rw [hload]
      exact List.sorted_insertionSort slotLE t.slots
    · rw [hload]
      exact List.perm_insertionSort slotLE t.slots

end App

namespace Vault

/-- Strings are modelled as lists of characters so that the regex-like
scanning done by the vault plugin can be stated structurally. -/
abbrev Str := List Char

/-- The whitespace recognised by JavaScript `trim` on the character set this
codec uses. -/
def isWs (c : Char) : Bool :=
  c == ' ' || c == '\t' || c == '\n' || c == '\r' || c == '\x0B' || c == '\x0C'

/-- JavaScript `String.prototype.trim`. -/
def jsTrim (s : Str) : Str :=
  ((s.dropWhile isWs).reverse.dropWhile isWs).reverse

/-- JavaScript `split(/\r?\n/)`: each `\r\n` or lone `\n` separates lines. -/
def splitLines : Str → List Str
  | [] => [[]]
  | '\r' :: '\n' :: rest => [] :: splitLines rest
  | '\n' :: rest => [] :: splitLines rest
  | c :: rest =>
    match splitLines rest with
    | [] => [[c]]
    | l :: ls => (c :: l) :: ls

/-- Does `pat` occur at the very start of `s`? -/
def headMatches : Str → Str → Bool
  | [], _ => true
  | _ :: _, [] => false
  | p :: ps, c :: cs => p == c && headMatches ps cs

/-- Scan for the first occurrence of `pat` in `s`; on success return the part
before the occurrence and the part after it.  This is the common core of
JavaScript `indexOf`/`split`/lazy-regex scanning. -/
def splitAtFirst (pat : Str) : Str → Option (Str × Str)
  | [] => if headMatches pat [] then some ([], []) else none
  | c :: rest =>
    if headMatches pat (c :: rest) then some ([], (c :: rest).drop pat.length)
    else (splitAtFirst pat rest).map fun pr => (c :: pr.1, pr.2)

/-- JavaScript `includes`. -/
def hasSubstr (pat s : Str) : Bool := (splitAtFirst pat s).isSome

/-- The regex `## ${section}\n`. -/
def sectionHeader (name : Str) : Str := '#' :: '#' :: ' ' :: name ++ ['\n']

/-- The lazy-capture terminator `\n## ` of the section regex. -/
def BOUNDARY : Str := ['\n', '#', '#', ' ']

/-- The capture group of `## ${section}\n([\s\S]*?)(\n## |$)`: everything after
the first occurrence of the header up to the first `\n## ` (or the end). -/
def sectionBlock (md : Str) (name : Str) : Str :=
  match splitAtFirst (sectionHeader name) md with
  | none => []
  | some (_, rest) =>
    match splitAtFirst BOUNDARY rest with
    | none => rest
    | some (blk, _) => blk

structure Slot where
  startMinute : Nat
  endMinute : Nat
  label : Str
  notes : Str
deriving DecidableEq, Repr

def digitVal (c : Char) : Nat := c.toNat - '0'.toNat

/-- A character `.` can match in the anchored line regex: anything except a
line terminator. -/
def isLineChar (c : Char) : Bool := c != '\n' && c != '\r'

/-- The ` || ` separator between label and notes. -/
def SEP : Str := [' ', '|', '|', ' ']

/-- `replaceAll('\\n', '\n')`: left-to-right, non-overlapping. -/
def unescape : Str → Str
  | [] => []
  | [c] => [c]
  | c :: d :: rest =>
    if c = '\\' ∧ d = 'n' then '\n' :: unescape rest
    else c :: unescape (d :: rest)

/-- `replaceAll('\n', '\\n')`. -/
def escape : Str → Str
  | [] => []
  | c :: rest => if c = '\n' then '\\' :: 'n' :: escape rest else c :: escape rest

/-- `m[5].split(' || ')[0].trim()` and the notes branch of `parseSection`:
label is the trimmed text before the first ` || `; notes are the text after
it (rejoined), un-escaped and trimmed; absent separator means empty notes. -/
def labelNotes (rest : Str) : Str × Str :=
  match splitAtFirst SEP rest with
  | none => (jsTrim rest, [])
  | some (bef, aft) => (jsTrim bef, jsTrim (unescape aft))

/-- One line against `^- (\d{2}):(\d{2})-(\d{2}):(\d{2}) \| (.+)$` applied to
`line.trim()`, building the slot payload on a match. -/
def lineParse (line : Str) : Option Slot :=
  match jsTrim line with
  | '-' :: ' ' :: h1 :: h2 :: ':' :: m1 :: m2 :: '-' :: h3 :: h4 :: ':' :: m3 :: m4 ::
      ' ' :: '|' :: ' ' :: rest =>
    if h1.isDigit && h2.isDigit && m1.isDigit && m2.isDigit &&
        h3.isDigit && h4.isDigit && m3.isDigit && m4.isDigit &&
        !rest.isEmpty && rest.all isLineChar then
      some { startMinute := (10 * digitVal h1 + digitVal h2) * 60 +
               (10 * digitVal m1 + digitVal m2),
             endMinute := (10 * digitVal h3 + digitVal h4) * 60 +
               (10 * digitVal m3 + digitVal m4),
             label := (labelNotes rest).1, notes := (labelNotes rest).2 }
    else none
  | _ => none

/-- vite.config.ts `parseSection`. -/
def parseSection (md : Str) (name : Str) : List Slot :=
  (splitLines (sectionBlock md name)).filterMap lineParse

/-- vite.config.ts `parseBlock`: the section's lines, trimmed, blanks dropped. -/
def parseBlock (md : Str) (name : Str) : List Str :=
  ((splitLines (sectionBlock md name)).map jsTrim).filter fun l => !l.isEmpty

/-- The digit characters produced by `String(n)` for `n < 10`. -/
def digitChar : Nat → Char
  | 0 => '0' | 1 => '1' | 2 => '2' | 3 => '3' | 4 => '4'
  | 5 => '5' | 6 => '6' | 7 => '7' | 8 => '8' | _ => '9'

/-- `String(n).padStart(2, '0')` for `n < 100`. -/
def twoDigits (n : Nat) : Str := [digitChar (n / 10), digitChar (n % 10)]

/-- The `t` helper of `slotLine`: minutes reduced modulo 1440 and rendered as
`HH:MM`. -/
def timeText (m : Nat) : Str :=
  twoDigits ((m % 1440) / 60) ++ ':' :: twoDigits ((m % 1440) % 60)

/-- vite.config.ts `slotLine`. -/
def slotLine (s : Slot) : Str :=
  '-' :: ' ' :: timeText s.startMinute ++ '-' :: timeText s.endMinute ++
    ' ' :: '|' :: ' ' :: s.label ++
    (if (jsTrim s.notes).isEmpty then [] else SEP ++ escape (jsTrim s.notes))

/-- `join('\n')`. -/
def joinNL : List Str → Str
  | [] => []
  | [l] => l
  | l :: ls => l ++ '\n' :: joinNL ls

def planName : Str := ['P', 'l', 'a', 'n']

def retroName : Str := "Retrospect".data

def supName : Str := "Superseded Plans".data

/-- A `## Name` title line (the header without its newline). -/
def sectionTitle (name : Str) : Str := '#' :: '#' :: ' ' :: name

/-- vite.config.ts `buildMarkdown`. -/
def buildMarkdown (planSlots retroSlots : List Slot) (supersededLines : List Str) : Str :=
  joinNL ([sectionTitle planName] ++ planSlots.map slotLine ++ [[]] ++
    [sectionTitle retroName] ++ retroSlots.map slotLine ++ [[]] ++
    [sectionTitle supName] ++ supersededLines ++ [[]])

/-- The `where` object of the CRUD endpoint: each field optional. -/
structure CrudWhere where
  startMinute : Option Nat
  endMinute : Option Nat
  label : Option Str
  notes : Option Str
  labelContains : Option Str
deriving DecidableEq, Repr

/-- `toLowerCase` on the character set this codec uses. -/
def lowerStr (s : Str) : Str := s.map Char.toLower

/-- vite.config.ts `matchesWhere`.  `if (!where) return true`; each present
field is checked in turn; `where.labelContains` is tested under JS truthiness,
so an empty `labelContains` string imposes nothing. -/
def matchesWhere (slot : Slot) (w : Option CrudWhere) : Bool :=
  match w with
  | none => true
  | some w =>
    (match w.startMinute with | some v => slot.startMinute == v | none => true) &&
    (match w.endMinute with | some v => slot.endMinute == v | none => true) &&
    (match w.label with
      | some v => lowerStr (jsTrim slot.label) == lowerStr (jsTrim v)
      | none => true) &&
    (match w.notes with | some v => slot.notes == v | none => true) &&
    (match w.labelContains with
      | some lc => lc.isEmpty || hasSubstr (lowerStr lc) (lowerStr slot.label)
      | none => true)

/-- The `patch` object: `Object.assign(slot, patch)` overwrites present fields. -/
structure Patch where
  startMinute : Option Nat
  endMinute : Option Nat
  label : Option Str
  notes : Option Str
deriving DecidableEq, Repr

def applyPatch (s : Slot) (p : Patch) : Slot :=
  { startMinute := p.startMinute.getD s.startMinute,
    endMinute := p.endMinute.getD s.endMinute,
    label := p.label.getD s.label,
    notes := p.notes.getD s.notes }

/-- The truthiness test `!payload.limit`: absent or zero means "no limit". -/
def limitFalsy (limit : Option Nat) : Bool :=
  match limit with
  | none => true
  | some k => k == 0

/-- The update loop: `if (matchesWhere(slot, where) && (!limit || n < limit))
{ Object.assign(slot, patch); n += 1 }`, `n` starting at 0. -/
def updateGo (w : Option CrudWhere) (p : Patch) (limit : Option Nat) :
    List Slot → Nat → List Slot
  | [], _ => []
  | s :: rest, n =>
    if matchesWhere s w && (limitFalsy limit || decide (n < limit.getD 0)) then
      applyPatch s p :: updateGo w p limit rest (n + 1)
    else
      s :: updateGo w p limit rest n

def updateOp (slots : List Slot) (w : Option CrudWhere) (p : Patch)
    (limit : Option Nat) : List Slot :=
  updateGo w p limit slots 0

/-- The delete filter: `!(matchesWhere(slot, where) && (!limit || n++ < limit))`
— note the post-increment runs whenever the slot matches and a (truthy) limit
is present, even past the limit. -/
def deleteGo (w : Option CrudWhere) (limit : Option Nat) : List Slot → Nat → List Slot
  | [], _ => []
  | s :: rest, n =>
    if matchesWhere s w then
      if limitFalsy limit then deleteGo w limit rest n
      else if n < limit.getD 0 then deleteGo w limit rest (n + 1)
      else s :: deleteGo w limit rest (n + 1)
    else s :: deleteGo w limit rest n

def deleteOp (slots : List Slot) (w : Option CrudWhere) (limit : Option Nat) :
    List Slot :=
  deleteGo w limit slots 0

inductive Mode where
  | plan
  | retrospect
deriving DecidableEq, Repr

inductive CrudAction where
  | create (slots : List Slot)
  | update (w : Option CrudWhere) (p : Patch) (limit : Option Nat)
  | delete (w : Option CrudWhere) (limit : Option Nat)
deriving DecidableEq, Repr

/-- What the CRUD handler does to the targeted day's slot list. -/
def applyAction (slots : List Slot) : CrudAction → List Slot
  | .create newSlots => slots ++ newSlots
  | .update w p limit => updateOp slots w p limit
  | .delete w limit => deleteOp slots w limit

def slotLe (a b : Slot) : Prop := a.startMinute ≤ b.startMinute

instance : DecidableRel slotLe :=
  fun a b => inferInstanceAs (Decidable (a.startMinute ≤ b.startMinute))

instance : IsTotal Slot slotLe := ⟨fun a b => Nat.le_total a.startMinute b.startMinute⟩

instance : IsTrans Slot slotLe := ⟨fun _ _ _ h h' => le_trans h h'⟩

/-- The `normalize` step: stable sort ascending by `startMinute`. -/
def sortSlots (slots : List Slot) : List Slot :=
  List.insertionSort slotLe slots

/-- The plan list after the action (the action applies only in plan mode). -/
def planAfter (existing : Str) (mode : Mode) (act : CrudAction) : List Slot :=
  let plan := parseSection existing planName
  match mode with
  | .plan => applyAction plan act
  | .retrospect => plan

/-- The retrospect list after the action. -/
def retroAfter (existing : Str) (mode : Mode) (act : CrudAction) : List Slot :=
  let retro := parseSection existing retroName
  match mode with
  | .plan => retro
  | .retrospect => applyAction retro act

/-- vite.config.ts CRUD tail for create/update/delete: decode the three
sections of the existing document, mutate the targeted one, re-sort both slot
sections and re-encode the whole document. -/
def crudApply (existing : Str) (mode : Mode) (act : CrudAction) : Str :=
  buildMarkdown (sortSlots (planAfter existing mode act))
    (sortSlots (retroAfter existing mode act))
    (parseBlock existing supName)

lemma hasSubstr_nil (s : Str) : hasSubstr [] s = true := by
  cases s <;> rfl

/-- C6: a slot matches a `where` object iff every present field matches —
numeric equality for the minutes, case-insensitive trimmed equality for
`label`, exact equality for `notes`, case-insensitive substring for
`labelContains` — and the empty `where` matches every slot. -/
theorem matchesWhere_spec (slot : Slot) (w : CrudWhere) :
    (matchesWhere slot (some w) = true ↔
      ((∀ v, w.startMinute = some v → slot.startMinute = v) ∧
       (∀ v, w.endMinute = some v → slot.endMinute = v) ∧
       (∀ v, w.label = some v → lowerStr (jsTrim slot.label) = lowerStr (jsTrim v)) ∧
       (∀ v, w.notes = some v → slot.notes = v) ∧
       (∀ v, w.labelContains = some v →
         hasSubstr (lowerStr v) (lowerStr slot.label) = true))) ∧
    matchesWhere slot (some ⟨none, none, none, none, none⟩) = true := by
  refine ⟨?_, rfl⟩
  rcases w with ⟨ws, we, wl, wn, wlc⟩
  simp only [matchesWhere, Bool.and_eq_true, and_assoc]
  constructor
  · intro h
    obtain ⟨h1, h2, h3, h4, h5⟩ := h
    refine ⟨fun v hv => ?_, fun v hv => ?_, fun v hv => ?_, fun v hv => ?_, fun v hv => ?_⟩
    · subst hv
      simpa using h1
    · subst hv
      simpa using h2
    · subst hv
      simpa using h3
    · subst hv
      simpa using h4
    · subst hv
      by_cases hemp : v = []
      · subst hemp
        exact hasSubstr_nil _
      · have h6 : (v.isEmpty || hasSubstr (lowerStr v) (lowerStr slot.label)) = true := by
          simpa using h5
        rw [Bool.or_eq_true] at h6
        rcases h6 with h6 | h6
        · exact absurd (List.isEmpty_iff.mp h6) hemp
        · exact h6
  · rintro ⟨h1, h2, h3, h4, h5⟩
    refine ⟨?_, ?_, ?_, ?_, ?_⟩
    · cases ws with
      | none => rfl
      | some v => simpa using h1 v rfl
    · cases we with
      | none => rfl
      | some v => simpa using h2 v rfl
    · cases wl with
      | none => rfl
      | some v => simpa using h3 v rfl
    · cases wn with
      | none => rfl
      | some v => simpa using h4 v rfl
    · cases wlc with
      | none => rfl
      | some lc =>
        show (lc.isEmpty || hasSubstr (lowerStr lc) (lowerStr slot.label)) = true
        rw [Bool.or_eq_true]
        exact Or.inr (h5 lc rfl)

/-- The spec's wording of **update**: walk the day's slots in stored order and
patch each slot matching `where` while the optional budget lasts (`none` means
unlimited).  Stated from the spec's words, to be compared with `updateOp`. -/
def specUpdate (w : Option CrudWhere) (p : Patch) : List Slot → Option Nat → List Slot
  | [], _ => []
  | s :: rest, none =>
    if matchesWhere s w then applyPatch s p :: specUpdate w p rest none
    else s :: specUpdate w p rest none
  | s :: rest, some 0 => s :: specUpdate w p rest (some 0)
  | s :: rest, some (k + 1) =>
    if matchesWhere s w then applyPatch s p :: specUpdate w p rest (some k)
    else s :: specUpdate w p rest (some (k + 1))

/-- The spec's wording of **delete**: remove each matching slot while the
optional budget lasts.  Stated from the spec's words, to be compared with
`deleteOp`. -/
def specDelete (w : Option CrudWhere) : List Slot → Option Nat → List Slot
  | [], _ => []
  | s :: rest, none =>
    if matchesWhere s w then specDelete w rest none else s :: specDelete w rest none
  | s :: rest, some 0 => s :: specDelete w rest (some 0)
  | s :: rest, some (k + 1) =>
    if matchesWhere s w then specDelete w rest (some k)
    else s :: specDelete w rest (some (k + 1))

lemma updateGo_none (w : Option CrudWhere) (p : Patch) :
    ∀ slots n, updateGo w p none slots n = specUpdate w p slots none := by
  intro slots
  induction slots with
  | nil => intro n; rfl
  | cons s rest ih =>
    intro n
    by_cases hm : matchesWhere s w = true <;>
      simp [updateGo, specUpdate, limitFalsy, hm, ih]

lemma updateGo_some (w : Option CrudWhere) (p : Patch) (k : Nat) (hk : 0 < k) :
    ∀ slots n, updateGo w p (some k) slots n = specUpdate w p slots (some (k - n)) := by
  intro slots
  induction slots with
  | nil => intro n; rfl
  | cons s rest ih =>
    intro n
    have hfalsy : limitFalsy (some k) = false := by
      simp [limitFalsy]
      omega
    by_cases hm : matchesWhere s w = true
    · by_cases hn : n < k
      · obtain ⟨m, hmk⟩ : ∃ m, k - n = m + 1 := ⟨k - n - 1, by omega⟩
        have hm1 : k - (n + 1) = m := by omega
        simp [updateGo, hm, hfalsy, hn, hmk, hm1, specUpdate, ih]
      · have hmk : k - n = 0 := by omega
        simp [updateGo, hm, hfalsy, hn, hmk, specUpdate, ih]
    · rcases hnk : k - n with - | m <;>
        simp [updateGo, hm, hfalsy, hnk, specUpdate, ih]

lemma deleteGo_none (w : Option CrudWhere) :
    ∀ slots n, deleteGo w none slots n = specDelete w slots none := by
  intro slots
  induction slots with
  | nil => intro n; rfl
  | cons s rest ih =>
    intro n
    by_cases hm : matchesWhere s w = true <;>
      simp [deleteGo, specDelete, limitFalsy, hm, ih]

lemma deleteGo_some (w : Option CrudWhere) (k : Nat) (hk : 0 < k) :
    ∀ slots n, deleteGo w (some k) slots n = specDelete w slots (some (k - n)) := by
  intro slots
  induction slots with
  | nil => intro n; rfl
  | cons s rest ih =>
    intro n
    have hfalsy : limitFalsy (some k) = false := by
      simp [limitFalsy]
      omega
    by_cases hm : matchesWhere s w = true
    · by_cases hn : n < k
      · obtain ⟨m, hmk⟩ : ∃ m, k - n = m + 1 := ⟨k - n - 1, by omega⟩
        have hm1 : k - (n + 1) = m := by omega
        simp [deleteGo, hm, hfalsy, hn, hmk, hm1, specDelete, ih]
      · have hmk : k - n = 0 := by omega
        have hm1 : k - (n + 1) = 0 := by omega
        simp [deleteGo, hm, hfalsy, hn, hmk, hm1, specDelete, ih]
    · rcases hnk : k - n with - | m <;>
        simp [deleteGo, hm, hfalsy, hnk, specDelete, ih]

def emptyWhere : CrudWhere := ⟨none, none, none, none, none⟩

lemma deleteGo_emptyWhere (slots : List Slot) :
    ∀ n, deleteGo (some emptyWhere) none slots n = [] := by
  induction slots with
  | nil => intro n; rfl
  | cons s rest ih =>
    intro n
    simp only [deleteGo, matchesWhere, emptyWhere, limitFalsy]
    exact ih n

/-- C7 (amended): with no limit, or with a positive limit, `update` patches and
`delete` removes exactly the first `limit` matching slots in stored order
(every matching slot when no limit), leaving the rest untouched; `delete` with
an empty `where` and no limit removes every slot.  A limit of `0` is treated
by the code as "no limit" (JS falsiness), which the counterexample records. -/
theorem crud_limit_spec (slots : List Slot) (w : Option CrudWhere) (p : Patch)
    (lim : Option Nat) (hlim : ∀ k, lim = some k → 0 < k) :
    updateOp slots w p lim = specUpdate w p slots lim ∧
    deleteOp slots w lim = specDelete w slots lim ∧
    deleteOp slots (some emptyWhere) none = [] := by
  refine ⟨?_, ?_, deleteGo_emptyWhere slots 0⟩
  · cases lim with
    | none => exact updateGo_none w p slots 0
    | some k =>
      have hk : 0 < k := hlim k rfl
      have := updateGo_some w p k hk slots 0
      simpa using this
  · cases lim with
    | none => exact deleteGo_none w slots 0
    | some k =>
      have hk : 0 < k := hlim k rfl
      have := deleteGo_some w k hk slots 0
      simpa using this

def c7Slot : Slot := ⟨0, 10, ['x'], []⟩

/-- C7 witness: a delete with `limit = 1` on a two-slot day removes exactly
the first matching slot. -/
theorem crud_limit_spec_witness :
    deleteOp [c7Slot, c7Slot] (some emptyWhere) (some 1) =
      specDelete (some emptyWhere) [c7Slot, c7Slot] (some 1) :=
  (crud_limit_spec [c7Slot, c7Slot] (some emptyWhere) ⟨none, none, none, none⟩
    (some 1) (fun k hk => by cases hk; omega)).2.1

/-- C7 counterexample: with `limit = 0` the claim says no slot is affected,
but the code treats `0` as falsy ("no limit") and deletes every matching
slot. -/
theorem crud_limit_zero_cex :
    deleteOp [c7Slot] (some emptyWhere) (some 0) = [] ∧
    deleteOp [c7Slot] (some emptyWhere) (some 0) ≠ [c7Slot] := by decide

lemma joinNL_cons (l : Str) (ls : List Str) (h : ls ≠ []) :
    joinNL (l :: ls) = l ++ '\n' :: joinNL ls := by
  cases ls with
  | nil => exact absurd rfl h
  | cons a as => rfl

lemma joinNL_suffix (xs ys : List Str) (hys : ys ≠ []) :
    joinNL ys <:+ joinNL (xs ++ ys) := by
  induction xs with
  | nil => exact List.suffix_refl _
  | cons x xs' ih =>
    have hne : xs' ++ ys ≠ [] := by
      simp [hys]
    rw [List.cons_append, joinNL_cons x (xs' ++ ys) hne]
    exact ih.trans ((List.suffix_cons '\n' _).trans (List.suffix_append _ _))

lemma sectionBlock_suffix (p r : List Slot) (sup : List Str) :
    (sectionHeader supName ++ joinNL (sup ++ [[]])) <:+ buildMarkdown p r sup := by
  have hsplit : buildMarkdown p r sup =
      joinNL (([sectionTitle planName] ++ p.map slotLine ++ [[]] ++
        [sectionTitle retroName] ++ r.map slotLine ++ [[]]) ++
        (sectionTitle supName :: (sup ++ [[]]))) := by
    simp [buildMarkdown, List.append_assoc]
  rw [hsplit]
  have htail : joinNL (sectionTitle supName :: (sup ++ [[]])) =
      sectionHeader supName ++ joinNL (sup ++ [[]]) := by
    rw [joinNL_cons _ _ (by simp)]
    simp [sectionHeader, sectionTitle]
  have := joinNL_suffix
    ([sectionTitle planName] ++ p.map slotLine ++ [[]] ++
      [sectionTitle retroName] ++ r.map slotLine ++ [[]])
    (sectionTitle supName :: (sup ++ [[]])) (by simp)
  rw [htail] at this
  exact this

/-- C8 (amended): every create/update/delete rewrite re-encodes the whole
document with both the Plan and the Retrospect slot lists re-sorted ascending
by `startMinute` (each a permutation of the post-action list), and the
Superseded Plans section's entries — its lines after per-line trimming, with
blank lines dropped — carried over as the tail of the re-encoded document;
raw indentation and blank lines inside that section are not preserved. -/
theorem crudApply_frame (existing : Str) (mode : Mode) (act : CrudAction) :
    crudApply existing mode act =
      buildMarkdown (sortSlots (planAfter existing mode act))
        (sortSlots (retroAfter existing mode act)) (parseBlock existing supName) ∧
    (sortSlots (planAfter existing mode act)).Sorted slotLe ∧
    (sortSlots (planAfter existing mode act)).Perm (planAfter existing mode act) ∧
    (sortSlots (retroAfter existing mode act)).Sorted slotLe ∧
    (sortSlots (retroAfter existing mode act)).Perm (retroAfter existing mode act) ∧
    (sectionHeader supName ++ joinNL (parseBlock existing supName ++ [[]])) <:+
      crudApply existing mode act := by
  refine ⟨rfl, List.sorted_insertionSort slotLe _, List.perm_insertionSort slotLe _,
    List.sorted_insertionSort slotLe _, List.perm_insertionSort slotLe _, ?_⟩
  exact sectionBlock_suffix _ _ _

def c8Doc : Str :=
  "## Plan\n\n## Retrospect\n\n## Superseded Plans\n  - keep\n".data

/-- C8 counterexample: a raw Superseded Plans line with leading indentation
(`"  - keep"`) is present in the existing document but is not carried over
unchanged by a CRUD rewrite — the rewrite stores the trimmed line `"- keep"`
instead, refuting "the section's lines are carried over unchanged". -/
theorem crudApply_raw_superseded_cex :
    hasSubstr "  - keep".data c8Doc = true ∧
    hasSubstr "  - keep".data (crudApply c8Doc .plan (.create [])) = false := by
  decide

lemma head?_dropWhile (p : Char → Bool) (s : Str) :
    ∀ c, (s.dropWhile p).head? = some c → p c = false := by
  induction s with
  | nil => intro c h; simp at h
  | cons a t ih =>
    intro c h
    by_cases hpa : p a = true
    · rw [List.dropWhile_cons, if_pos hpa] at h
      exact ih c h
    · rw [List.dropWhile_cons, if_neg hpa] at h
      simp only [List.head?_cons, Option.some.injEq] at h
      subst h
      exact Bool.not_eq_true _ ▸ hpa

lemma prefix_head? {t A : Str} (h : t <+: A) (hne : t ≠ []) : t.head? = A.head? := by
  obtain ⟨u, rfl⟩ := h
  exact (List.head?_append_of_ne_nil t hne).symm

lemma jsTrim_isPrefix (s : Str) : jsTrim s <+: s.dropWhile isWs := by
  have h : ((s.dropWhile isWs).reverse).dropWhile isWs <:+ (s.dropWhile isWs).reverse :=
    List.dropWhile_suffix isWs
  have h2 := List.reverse_prefix.mpr h
  rw [List.reverse_reverse] at h2
  exact h2

lemma jsTrim_isInfix (s : Str) : jsTrim s <:+: s :=
  ((jsTrim_isPrefix s).isInfix).trans (List.dropWhile_suffix isWs).isInfix

lemma jsTrim_head (s : Str) : ∀ c, (jsTrim s).head? = some c → isWs c = false := by
  intro c h
  have hne : jsTrim s ≠ [] := by
    intro hnil
    rw [hnil] at h
    simp at h
  rw [prefix_head? (jsTrim_isPrefix s) hne] at h
  exact head?_dropWhile isWs _ c h

lemma jsTrim_getLast (s : Str) : ∀ c, (jsTrim s).getLast? = some c → isWs c = false := by
  intro c h
  unfold jsTrim at h
  rw [List.getLast?_reverse] at h
  exact head?_dropWhile isWs _ c h

lemma jsTrim_eq_self (s : Str) (h1 : ∀ c, s.head? = some c → isWs c = false)
    (h2 : ∀ c, s.getLast? = some c → isWs c = false) : jsTrim s = s := by
  unfold jsTrim
  have hd : s.dropWhile isWs = s := by
    cases s with
    | nil => rfl
    | cons c t =>
      rw [List.dropWhile_cons, if_neg]
      rw [h1 c rfl]
      simp
  rw [hd]
  have hrev : s.reverse.dropWhile isWs = s.reverse := by
    cases hs : s.reverse with
    | nil => rfl
    | cons c t =>
      have hlast : s.getLast? = some c := by
        rw [← List.head?_reverse, hs]
        rfl
      rw [List.dropWhile_cons, if_neg]
      rw [h2 c hlast]
      simp
  rw [hrev, List.reverse_reverse]

lemma jsTrim_idem (s : Str) : jsTrim (jsTrim s) = jsTrim s :=
  jsTrim_eq_self _ (jsTrim_head s) (jsTrim_getLast s)

lemma headMatches_iff (p : Str) : ∀ s, headMatches p s = true ↔ p <+: s := by
  induction p with
  | nil =>
    intro s
    simp [headMatches]
  | cons a p' ih =>
    intro s
    cases s with
    | nil => simp [headMatches]
    | cons c t =>
      simp only [headMatches, Bool.and_eq_true, beq_iff_eq, List.cons_prefix_cons, ih]

lemma splitAtFirst_of_headMatches (pat s : Str) (h : headMatches pat s = true) :
    splitAtFirst pat s = some ([], s.drop pat.length) := by
  cases s with
  | nil =>
    simp only [splitAtFirst, h, if_true]
    cases pat <;> rfl
  | cons c t => simp [splitAtFirst, h]

lemma splitAtFirst_cons_neg (pat : Str) (c : Char) (rest : Str)
    (h : headMatches pat (c :: rest) = false) :
    splitAtFirst pat (c :: rest) =
      (splitAtFirst pat rest).map fun pr => (c :: pr.1, pr.2) := by
  simp [splitAtFirst, h]

lemma splitAtFirst_eq_some (pat : Str) (hpat : pat ≠ []) :
    ∀ s b a, splitAtFirst pat s = some (b, a) →
      s = b ++ pat ++ a ∧ splitAtFirst pat b = none := by
  intro s
  induction s with
  | nil =>
    intro b a h
    have hm : headMatches pat [] = false := by
      cases pat with
      | nil => exact absurd rfl hpat
      | cons x xs => rfl
    simp [splitAtFirst, hm] at h
  | cons c rest ih =>
    intro b a h
    by_cases hm : headMatches pat (c :: rest) = true
    · rw [splitAtFirst_of_headMatches pat _ hm] at h
      obtain ⟨hb, ha⟩ : ([] : Str) = b ∧ (c :: rest).drop pat.length = a := by
        simpa using h
      subst hb
      subst ha
      obtain ⟨u, hu⟩ := (headMatches_iff pat _).mp hm
      constructor
      · rw [List.nil_append, ← hu, List.drop_left]
      · have hmn : headMatches pat [] = false := by
          cases pat with
          | nil => exact absurd rfl hpat
          | cons x xs => rfl
        simp [splitAtFirst, hmn]
    · rw [splitAtFirst_cons_neg pat c rest (Bool.not_eq_true _ ▸ hm)] at h
      cases hrec : splitAtFirst pat rest with
      | none => rw [hrec] at h; simp at h
      | some pr =>
        rw [hrec] at h
        obtain ⟨b', a'⟩ := pr
        simp only [Option.map_some', Option.some.injEq, Prod.mk.injEq] at h
        obtain ⟨hb, ha⟩ := h
        obtain ⟨hs, hnone⟩ := ih b' a' hrec
        subst hs
        subst ha
        subst hb
        refine ⟨by simp, ?_⟩
        have hmb : headMatches pat (c :: b') = false := by
          rw [Bool.eq_false_iff]
          intro hmb2
          apply hm
          rw [headMatches_iff] at hmb2 ⊢
          calc pat <+: c :: b' := hmb2
            _ <+: (c :: b') ++ (pat ++ a') := List.prefix_append _ _
            _ = c :: (b' ++ pat ++ a') := by simp
        rw [splitAtFirst_cons_neg pat c b' hmb, hnone]
        rfl

lemma splitAtFirst_eq_none_iff (pat : Str) (hpat : pat ≠ []) :
    ∀ s, splitAtFirst pat s = none ↔ ¬ pat <:+: s := by
  intro s
  induction s with
  | nil =>
    have hm : headMatches pat [] = false := by
      cases pat with
      | nil => exact absurd rfl hpat
      | cons x xs => rfl
    simp only [splitAtFirst, hm, Bool.false_eq_true, if_false, true_iff]
    intro hinf
    exact hpat (List.eq_nil_of_infix_nil hinf)
  | cons c rest ih =>
    by_cases hm : headMatches pat (c :: rest) = true
    · rw [splitAtFirst_of_headMatches pat _ hm]
      simp only [reduceCtorEq, false_iff, not_not]
      exact ((headMatches_iff pat _).mp hm).isInfix
    · rw [splitAtFirst_cons_neg pat c rest (Bool.not_eq_true _ ▸ hm)]
      rw [List.infix_cons_iff]
      cases hrec : splitAtFirst pat rest with
      | none =>
        simp only [Option.map_none', true_iff]
        rintro (hpre | hinf)
        · exact absurd ((headMatches_iff pat _).mpr hpre) hm
        · exact (ih.mp hrec) hinf
      | some pr =>
        simp only [Option.map_some', reduceCtorEq, false_iff, not_not]
        right
        by_contra hninf
        rw [← ih] at hninf
        rw [hrec] at hninf
        exact Option.noConfusion hninf

lemma splitAtFirst_reconstruct (pat a : Str) :
    ∀ b : Str, (∀ b₂, b₂ <:+ b → b₂ ≠ [] → headMatches pat (b₂ ++ (pat ++ a)) = false) →
      splitAtFirst pat (b ++ pat ++ a) = some (b, a) := by
  intro b
  induction b with
  | nil =>
    intro _
    have hm : headMatches pat (pat ++ a) = true :=
      (headMatches_iff pat _).mpr (List.prefix_append pat a)
    rw [List.nil_append, splitAtFirst_of_headMatches pat _ hm, List.drop_left]
  | cons c b' ih =>
    intro h
    have hm : headMatches pat ((c :: b') ++ (pat ++ a)) = false :=
      h (c :: b') (List.suffix_refl _) (by simp)
    have hm' : headMatches pat (c :: (b' ++ pat ++ a)) = false := by
      simpa using hm
    rw [show (c :: b') ++ pat ++ a = c :: (b' ++ pat ++ a) by simp]
    rw [splitAtFirst_cons_neg pat c _ hm']
    rw [ih]
    · rfl
    · intro b₂ hsuf hne
      exact h b₂ (hsuf.trans (List.suffix_cons c b')) hne

lemma splitAtFirst_none_of_infix {pat s t : Str} (hpat : pat ≠ [])
    (h : splitAtFirst pat s = none) (hinf : t <:+: s) : splitAtFirst pat t = none := by
  rw [splitAtFirst_eq_none_iff pat hpat] at h ⊢
  exact fun hc => h (hc.trans hinf)

/-- The two-character escape sequence for a newline. -/
def BSN : Str := ['\\', 'n']

lemma escape_eq_nil_iff (s : Str) : escape s = [] ↔ s = [] := by
  cases s with
  | nil => simp [escape]
  | cons c t =>
    simp only [escape]
    split_ifs <;> simp

lemma escape_chars (s : Str) : ∀ c ∈ escape s, c = '\\' ∨ c = 'n' ∨ (c ∈ s ∧ c ≠ '\n') := by
  induction s with
  | nil => simp [escape]
  | cons a t ih =>
    intro c hc
    simp only [escape] at hc
    split_ifs at hc with ha
    · simp only [List.mem_cons] at hc
      rcases hc with rfl | rfl | hc
      · exact Or.inl rfl
      · exact Or.inr (Or.inl rfl)
      · rcases ih c hc with h | h | ⟨h1, h2⟩
        · exact Or.inl h
        · exact Or.inr (Or.inl h)
        · exact Or.inr (Or.inr ⟨List.mem_cons_of_mem a h1, h2⟩)
    · simp only [List.mem_cons] at hc
      rcases hc with rfl | hc
      · exact Or.inr (Or.inr ⟨List.mem_cons_self _ _, ha⟩)
      · rcases ih c hc with h | h | ⟨h1, h2⟩
        · exact Or.inl h
        · exact Or.inr (Or.inl h)
        · exact Or.inr (Or.inr ⟨List.mem_cons_of_mem a h1, h2⟩)

lemma escape_cons_nl (t : Str) : escape ('\n' :: t) = '\\' :: 'n' :: escape t := by
  simp [escape]

lemma escape_cons_other (c : Char) (t : Str) (hc : c ≠ '\n') :
    escape (c :: t) = c :: escape t := by
  simp [escape, hc]

lemma escape_getLast (s : Str) (h : ∀ c, s.getLast? = some c → c ≠ '\n') :
    (escape s).getLast? = s.getLast? := by
  induction s with
  | nil => rfl
  | cons a t ih =>
    cases t with
    | nil =>
      have ha : a ≠ '\n' := h a rfl
      rw [escape_cons_other a [] ha]
      rfl
    | cons b t' =>
      have hlast : ∀ c, (b :: t').getLast? = some c → c ≠ '\n' := by
        intro c hc
        apply h c
        rw [List.getLast?_cons_cons]
        exact hc
      have iht := ih hlast
      have hsome : ∃ c, (b :: t').getLast? = some c := by
        cases hbt : (b :: t').getLast? with
        | none => simp at hbt
        | some c => exact ⟨c, rfl⟩
      obtain ⟨c0, hc0⟩ := hsome
      by_cases ha : a = '\n'
      · subst ha
        rw [escape_cons_nl]
        rw [show ('\\' :: 'n' :: escape (b :: t')) = ['\\', 'n'] ++ escape (b :: t')
          from rfl, List.getLast?_append, iht]
        simp [hc0, List.getLast?_cons_cons]
      · rw [escape_cons_other a _ ha]
        rw [show (a :: escape (b :: t')) = [a] ++ escape (b :: t') from rfl,
          List.getLast?_append, iht]
        simp [hc0, List.getLast?_cons_cons]

lemma unescape_head_cases (b : Char) (rest : Str) :
    (unescape (b :: rest)).head? = some b ∨ (unescape (b :: rest)).head? = some '\n' := by
  cases rest with
  | nil => exact Or.inl rfl
  | cons d r =>
    simp only [unescape]
    split_ifs with hb
    · exact Or.inr rfl
    · exact Or.inl rfl

lemma headMatches_single (x : Char) (t : Str) :
    headMatches [x] t = true ↔ t.head? = some x := by
  cases t with
  | nil => simp [headMatches]
  | cons c r =>
    show ((x == c) && headMatches [] r) = true ↔ (c :: r).head? = some x
    rw [show headMatches [] r = true from rfl, Bool.and_true, beq_iff_eq]
    constructor
    · rintro rfl
      rfl
    · intro h
      have hcx : c = x := by simpa using h
      exact hcx.symm

theorem unescape_mem : ∀ s : Str, ∀ c ∈ unescape s, c ∈ s ∨ c = '\n'
  | [] => by simp [unescape]
  | [d] => by
    intro c hc
    simp only [unescape] at hc
    exact Or.inl hc
  | a :: b :: rest => by
    intro c hc
    simp only [unescape] at hc
    split_ifs at hc with hab
    · rcases List.mem_cons.mp hc with rfl | hc2
      · exact Or.inr rfl
      · rcases unescape_mem rest c hc2 with h | h
        · exact Or.inl (List.mem_cons_of_mem _ (List.mem_cons_of_mem _ h))
        · exact Or.inr h
    · rcases List.mem_cons.mp hc with rfl | hc2
      · exact Or.inl (List.mem_cons_self _ _)
      · rcases unescape_mem (b :: rest) c hc2 with h | h
        · exact Or.inl (List.mem_cons_of_mem _ h)
        · exact Or.inr h

theorem unescape_no_bsn : ∀ s : Str, ∀ s₂, s₂ <:+ unescape s →
    headMatches BSN s₂ = false
  | [] => by
    intro s₂ hs
    rw [show unescape [] = [] from rfl] at hs
    rw [List.suffix_nil.mp hs]
    rfl
  | [d] => by
    intro s₂ hs
    rw [show unescape [d] = [d] from rfl] at hs
    rcases List.suffix_cons_iff.mp hs with rfl | hs2
    · simp [BSN, headMatches]
    · rw [List.suffix_nil.mp hs2]
      rfl
  | a :: b :: rest => by
    intro s₂ hs
    by_cases hab : a = '\\' ∧ b = 'n'
    · rw [show unescape (a :: b :: rest) = '\n' :: unescape rest by
        simp [unescape, hab]] at hs
      rcases List.suffix_cons_iff.mp hs with rfl | hs2
      · simp [BSN, headMatches]
      · exact unescape_no_bsn rest s₂ hs2
    · rw [show unescape (a :: b :: rest) = a :: unescape (b :: rest) by
        simp [unescape, hab]] at hs
      rcases List.suffix_cons_iff.mp hs with rfl | hs2
      · by_cases ha : a = '\\'
        · subst ha
          show (('\\' : Char) == '\\' && headMatches ['n'] (unescape (b :: rest))) = false
          rw [Bool.eq_false_iff]
          intro hcon
          rw [Bool.and_eq_true, headMatches_single] at hcon
          have hb : b ≠ 'n' := fun hbn => hab ⟨rfl, hbn⟩
          rcases unescape_head_cases b rest with hh | hh <;>
            rw [hh] at hcon <;> simp at hcon
          exact hb hcon
        · show ((('\\' : Char) == a) && headMatches ['n'] (unescape (b :: rest))) = false
          have : (('\\' : Char) == a) = false := by
            rw [beq_eq_false_iff_ne]
            exact fun hcc => ha hcc.symm
          rw [this, Bool.false_and]
      · exact unescape_no_bsn (b :: rest) s₂ hs2

lemma escape_head_cases (t : Str) :
    (escape t).head? = t.head? ∨ (escape t).head? = some '\\' := by
  cases t with
  | nil => exact Or.inl rfl
  | cons u t' =>
    simp only [escape]
    split_ifs with hu
    · exact Or.inr rfl
    · exact Or.inl rfl

theorem unescape_escape (s : Str) (h : ∀ s₂, s₂ <:+ s → headMatches BSN s₂ = false) :
    unescape (escape s) = s := by
  induction s with
  | nil => rfl
  | cons c t ih =>
    have ht : ∀ s₂, s₂ <:+ t → headMatches BSN s₂ = false :=
      fun s₂ hs => h s₂ (hs.trans (List.suffix_cons c t))
    by_cases hc : c = '\n'
    · subst hc
      rw [show escape ('\n' :: t) = '\\' :: 'n' :: escape t by simp [escape]]
      rw [show unescape ('\\' :: 'n' :: escape t) = '\n' :: unescape (escape t) by
        simp [unescape]]
      rw [ih ht]
    · rw [show escape (c :: t) = c :: escape t by simp [escape, hc]]
      cases het : escape t with
      | nil =>
        rw [(escape_eq_nil_iff t).mp het]
        rfl
      | cons d r =>
        have hnotbsn : ¬(c = '\\' ∧ d = 'n') := by
          rintro ⟨rfl, rfl⟩
          have hwhole := h ('\\' :: t) (List.suffix_refl _)
          have hns : headMatches ['n'] t = false := by
            simpa [BSN, headMatches] using hwhole
          have hd : (escape t).head? = some 'n' := by
            rw [het]
            rfl
          rcases escape_head_cases t with hh | hh
          · rw [hh] at hd
            exact absurd ((headMatches_single 'n' t).mpr hd) (Bool.eq_false_iff.mp hns)
          · rw [hh] at hd
            simp at hd
        rw [show unescape (c :: d :: r) = c :: unescape (d :: r) by
          simp [unescape, hnotbsn]]
        rw [← het, ih ht]

lemma splitLines_newline (rest : Str) : splitLines ('\n' :: rest) = [] :: splitLines rest :=
  rfl

lemma splitLines_cons_other (c : Char) (rest : Str) (hc1 : c ≠ '\n') (hc2 : c ≠ '\r') :
    splitLines (c :: rest) =
      match splitLines rest with
      | [] => [[c]]
      | l :: ls => (c :: l) :: ls := by
  rw [splitLines.eq_def]
  split <;> simp_all

lemma splitLines_ne_nil (s : Str) : splitLines s ≠ [] := by
  induction s using splitLines.induct <;> simp_all [splitLines]

lemma splitLines_line (l : Str) (rest : Str) (h : ∀ c ∈ l, isLineChar c = true) :
    splitLines (l ++ '\n' :: rest) = l :: splitLines rest := by
  induction l with
  | nil => exact splitLines_newline rest
  | cons c l' ih =>
    have hc := h c (List.mem_cons_self _ _)
    have hc1 : c ≠ '\n' := by
      intro hcc
      rw [hcc] at hc
      simp [isLineChar] at hc
    have hc2 : c ≠ '\r' := by
      intro hcc
      rw [hcc] at hc
      simp [isLineChar] at hc
    have ih' := ih fun d hd => h d (List.mem_cons_of_mem c hd)
    rw [List.cons_append, splitLines_cons_other c _ hc1 hc2, ih']

lemma splitLines_join (lines : List Str) (hne : lines ≠ [])
    (h : ∀ l ∈ lines, ∀ c ∈ l, isLineChar c = true) :
    splitLines (joinNL lines ++ ['\n']) = lines ++ [[]] := by
  induction lines with
  | nil => exact absurd rfl hne
  | cons l ls ih =>
    cases ls with
    | nil =>
      have hl := h l (List.mem_cons_self _ _)
      rw [show joinNL [l] ++ ['\n'] = l ++ '\n' :: [] from rfl, splitLines_line l [] hl]
      rfl
    | cons l₂ ls₂ =>
      have hl := h l (List.mem_cons_self _ _)
      rw [joinNL_cons l (l₂ :: ls₂) (by simp)]
      rw [show (l ++ '\n' :: joinNL (l₂ :: ls₂)) ++ ['\n'] =
        l ++ '\n' :: (joinNL (l₂ :: ls₂) ++ ['\n']) by simp]
      rw [splitLines_line l _ hl]
      rw [ih (by simp) fun m hm d hd => h m (List.mem_cons_of_mem l hm) d hd]
      rfl

lemma joinNL_append (xs ys : List Str) (hxs : xs ≠ []) (hys : ys ≠ []) :
    joinNL (xs ++ ys) = joinNL xs ++ '\n' :: joinNL ys := by
  induction xs with
  | nil => exact absurd rfl hxs
  | cons x xs' ih =>
    cases xs' with
    | nil =>
      rw [show ([x] : List Str) ++ ys = x :: ys from rfl, joinNL_cons x ys hys]
      rfl
    | cons x₂ xs₂ =>
      rw [show (x :: x₂ :: xs₂) ++ ys = x :: ((x₂ :: xs₂) ++ ys) from rfl]
      rw [joinNL_cons x _ (by simp), ih (by simp), joinNL_cons x (x₂ :: xs₂) (by simp)]
      simp

lemma headMatches_boundary_other (c : Char) (s : Str) (hc : c ≠ '\n') :
    headMatches BOUNDARY (c :: s) = false := by
  show (('\n' == c) && headMatches ['#', '#', ' '] s) = false
  rw [show (('\n' : Char) == c) = false from beq_eq_false_iff_ne.mpr fun h => hc h.symm]
  rw [Bool.false_and]

lemma splitAtFirst_boundary_skip (l : Str) (s : Str) (h : ∀ c ∈ l, c ≠ '\n') :
    splitAtFirst BOUNDARY (l ++ s) =
      (splitAtFirst BOUNDARY s).map fun pr => (l ++ pr.1, pr.2) := by
  induction l with
  | nil =>
    simp only [List.nil_append]
    cases splitAtFirst BOUNDARY s with
    | none => rfl
    | some pr => simp
  | cons c l' ih =>
    have hc := h c (List.mem_cons_self _ _)
    have hm : headMatches BOUNDARY (c :: (l' ++ s)) = false :=
      headMatches_boundary_other c _ hc
    rw [List.cons_append, splitAtFirst_cons_neg _ c _ hm,
      ih fun d hd => h d (List.mem_cons_of_mem c hd)]
    cases splitAtFirst BOUNDARY s with
    | none => rfl
    | some pr => simp

lemma joinNL_head_ne_hash (l₂ : Str) (ls₂ : List Str) (X : Str)
    (h : l₂.head? ≠ some '#') :
    ∀ c, (joinNL (l₂ :: ls₂) ++ '\n' :: X).head? = some c → c ≠ '#' := by
  intro c hc
  cases l₂ with
  | nil =>
    cases ls₂ with
    | nil =>
      simp only [joinNL, List.nil_append, List.head?_cons, Option.some.injEq] at hc
      subst hc
      decide
    | cons m ms =>
      rw [joinNL_cons [] (m :: ms) (by simp)] at hc
      simp only [List.nil_append, List.cons_append, List.head?_cons,
        Option.some.injEq] at hc
      subst hc
      decide
  | cons d t =>
    have hjoin : ∃ Y, joinNL ((d :: t) :: ls₂) = d :: Y := by
      cases ls₂ with
      | nil => exact ⟨t, rfl⟩
      | cons m ms =>
        rw [joinNL_cons (d :: t) (m :: ms) (by simp)]
        exact ⟨t ++ '\n' :: joinNL (m :: ms), rfl⟩
    obtain ⟨Y, hY⟩ := hjoin
    rw [hY] at hc
    simp only [List.cons_append, List.head?_cons, Option.some.injEq] at hc
    subst hc
    intro hcc
    exact h (by rw [hcc]; rfl)

lemma splitAtFirst_boundary_base (after : Str) :
    splitAtFirst BOUNDARY ('\n' :: (BOUNDARY ++ after)) = some (['\n'], after) := by
  have hm1 : headMatches BOUNDARY ('\n' :: (BOUNDARY ++ after)) = false := by
    show (('\n' == '\n') && (('#' == '\n') &&
      headMatches ['#', ' '] ('#' :: '#' :: ' ' :: after))) = false
    rw [show (('#' : Char) == '\n') = false from rfl, Bool.false_and, Bool.and_false]
  rw [splitAtFirst_cons_neg _ _ _ hm1]
  have hm2 : headMatches BOUNDARY (BOUNDARY ++ after) = true :=
    (headMatches_iff _ _).mpr (List.prefix_append _ _)
  rw [splitAtFirst_of_headMatches _ _ hm2, List.drop_left]
  rfl

lemma splitAtFirst_boundary_join (lines : List Str) (after : Str)
    (h : ∀ l ∈ lines, (∀ c ∈ l, isLineChar c = true) ∧ l.head? ≠ some '#') :
    splitAtFirst BOUNDARY (joinNL lines ++ '\n' :: (BOUNDARY ++ after)) =
      some (joinNL lines ++ ['\n'], after) := by
  induction lines with
  | nil =>
    rw [show joinNL [] ++ '\n' :: (BOUNDARY ++ after) = '\n' :: (BOUNDARY ++ after)
      from rfl]
    rw [splitAtFirst_boundary_base after]
    rfl
  | cons l ls ih =>
    obtain ⟨hlc, hhash⟩ := h l (List.mem_cons_self _ _)
    have hlc' : ∀ c ∈ l, c ≠ '\n' := by
      intro c hc
      have := hlc c hc
      simp only [isLineChar, Bool.and_eq_true, bne_iff_ne, Ne] at this
      exact this.1
    cases ls with
    | nil =>
      rw [show joinNL [l] ++ '\n' :: (BOUNDARY ++ after) =
        l ++ ('\n' :: (BOUNDARY ++ after)) from rfl]
      rw [splitAtFirst_boundary_skip l _ hlc', splitAtFirst_boundary_base after]
      rfl
    | cons l₂ ls₂ =>
      rw [joinNL_cons l (l₂ :: ls₂) (by simp)]
      rw [show (l ++ '\n' :: joinNL (l₂ :: ls₂)) ++ '\n' :: (BOUNDARY ++ after) =
        l ++ '\n' :: (joinNL (l₂ :: ls₂) ++ '\n' :: (BOUNDARY ++ after)) by simp]
      rw [splitAtFirst_boundary_skip l _ hlc']
      have hm1 : headMatches BOUNDARY
          ('\n' :: (joinNL (l₂ :: ls₂) ++ '\n' :: (BOUNDARY ++ after))) = false := by
        show (('\n' == '\n') && headMatches ['#', '#', ' ']
          (joinNL (l₂ :: ls₂) ++ '\n' :: (BOUNDARY ++ after))) = false
        rw [Bool.and_eq_false_iff]
        right
        cases harg : joinNL (l₂ :: ls₂) ++ '\n' :: (BOUNDARY ++ after) with
        | nil => rfl
        | cons d t =>
          have hd : d ≠ '#' := by
            apply joinNL_head_ne_hash l₂ ls₂ (BOUNDARY ++ after) (h l₂ (by simp)).2 d
            rw [harg]
            rfl
          show (('#' == d) && headMatches ['#', ' '] t) = false
          rw [show (('#' : Char) == d) = false from
            beq_eq_false_iff_ne.mpr fun hcc => hd hcc.symm]
          rw [Bool.false_and]
      rw [splitAtFirst_cons_neg _ _ _ hm1]
      rw [ih fun m hm => h m (List.mem_cons_of_mem l hm)]
      simp

lemma splitAtFirst_header (name x : Str) :
    splitAtFirst (sectionHeader name) (sectionHeader name ++ x) = some ([], x) := by
  have hm : headMatches (sectionHeader name) (sectionHeader name ++ x) = true :=
    (headMatches_iff _ _).mpr (List.prefix_append _ _)
  rw [splitAtFirst_of_headMatches _ _ hm, List.drop_left]

lemma digitChar_isDigit (k : Nat) : (digitChar k).isDigit = true := by
  unfold digitChar
  split <;> decide

lemma digitChar_lineChar (k : Nat) : isLineChar (digitChar k) = true := by
  unfold digitChar
  split <;> decide

lemma digitChar_notWs (k : Nat) : isWs (digitChar k) = false := by
  unfold digitChar
  split <;> decide

lemma digitVal_digitChar (k : Nat) (h : k < 10) : digitVal (digitChar k) = k := by
  interval_cases k <;> decide

lemma twoDigits_parse (n : Nat) (h : n < 100) :
    10 * digitVal (digitChar (n / 10)) + digitVal (digitChar (n % 10)) = n := by
  rw [digitVal_digitChar _ (by omega), digitVal_digitChar _ (by omega)]
  omega

lemma timeText_parse (m : Nat) :
    (10 * digitVal (digitChar (m % 1440 / 60 / 10)) +
        digitVal (digitChar (m % 1440 / 60 % 10))) * 60 +
      (10 * digitVal (digitChar (m % 1440 % 60 / 10)) +
        digitVal (digitChar (m % 1440 % 60 % 10))) = m % 1440 := by
  have h1 : m % 1440 < 1440 := Nat.mod_lt _ (by omega)
  rw [twoDigits_parse _ (by omega), twoDigits_parse _ (by omega)]
  omega

lemma prefix_append_split {p x y : Str} (h : p <+: x ++ y) :
    p <+: x ∨ ∃ p₂, p = x ++ p₂ ∧ p₂ <+: y := by
  induction x generalizing p with
  | nil => exact Or.inr ⟨p, rfl, h⟩
  | cons a x' ih =>
    cases p with
    | nil => exact Or.inl List.nil_prefix
    | cons b p' =>
      rw [List.cons_append, List.cons_prefix_cons] at h
      obtain ⟨rfl, h'⟩ := h
      rcases ih h' with h2 | ⟨p₂, rfl, hp₂⟩
      · exact Or.inl (List.cons_prefix_cons.mpr ⟨rfl, h2⟩)
      · exact Or.inr ⟨p₂, by simp, hp₂⟩

lemma no_occ_suffix (pat s : Str) (hp : pat ≠ []) (h : splitAtFirst pat s = none) :
    ∀ s₂, s₂ <:+ s → headMatches pat s₂ = false := by
  intro s₂ hs
  rw [Bool.eq_false_iff]
  intro hm
  exact (splitAtFirst_eq_none_iff pat hp s).mp h
    (List.infix_iff_prefix_suffix.mpr ⟨s₂, (headMatches_iff _ _).mp hm, hs⟩)

lemma sep_no_early (label E : Str)
    (hno : splitAtFirst SEP label = none)
    (htl : ¬ ([' ', '|', '|'] <:+ label)) :
    ∀ b₂, b₂ <:+ label → b₂ ≠ [] → headMatches SEP (b₂ ++ (SEP ++ E)) = false := by
  intro b₂ hsuf hne
  rw [Bool.eq_false_iff]
  intro hm
  have hpre := (headMatches_iff _ _).mp hm
  rcases prefix_append_split hpre with hp | ⟨p₂, hSEPeq, hp₂⟩
  · exact (splitAtFirst_eq_none_iff SEP (by decide) label).mp hno
      (hp.isInfix.trans hsuf.isInfix)
  · rcases b₂ with - | ⟨c1, b₃⟩
    · exact hne rfl
    rcases b₃ with - | ⟨c2, b₄⟩
    · obtain ⟨rfl, rfl⟩ : ' ' = c1 ∧ ['|', '|', ' '] = p₂ := by
        simpa [SEP] using hSEPeq
      simp [SEP, List.cons_prefix_cons] at hp₂
    rcases b₄ with - | ⟨c3, b₅⟩
    · obtain ⟨rfl, rfl, rfl⟩ : ' ' = c1 ∧ '|' = c2 ∧ ['|', ' '] = p₂ := by
        simpa [SEP] using hSEPeq
      simp [SEP, List.cons_prefix_cons] at hp₂
    rcases b₅ with - | ⟨c4, b₆⟩
    · obtain ⟨rfl, rfl, rfl, rfl⟩ : ' ' = c1 ∧ '|' = c2 ∧ '|' = c3 ∧ [' '] = p₂ := by
        simpa [SEP] using hSEPeq
      exact htl hsuf
    · obtain ⟨rfl, rfl, rfl, rfl, rfl, rfl⟩ :
        ' ' = c1 ∧ '|' = c2 ∧ '|' = c3 ∧ ' ' = c4 ∧ b₆ = [] ∧ p₂ = [] := by
        simpa [SEP] using hSEPeq
      exact (splitAtFirst_eq_none_iff SEP (by decide) label).mp hno hsuf.isInfix

/-- The shape every slot produced by `lineParse` has: trimmed line-safe label
without the separator, trimmed notes without carriage returns or a literal
backslash-n. -/
def parseShape (s : Slot) : Prop :=
  jsTrim s.label = s.label ∧ (∀ c ∈ s.label, isLineChar c = true) ∧
  splitAtFirst SEP s.label = none ∧
  jsTrim s.notes = s.notes ∧ (∀ c ∈ s.notes, c ≠ '\r') ∧
  splitAtFirst BSN s.notes = none

/-- The extra payload conditions under which `slotLine` re-parses exactly: a
non-blank payload and no label tail that glues with the separator. -/
def slotLineSafe (s : Slot) : Prop :=
  parseShape s ∧ (s.label ≠ [] ∨ s.notes ≠ []) ∧
  (s.notes ≠ [] → ¬ ([' ', '|', '|'] <:+ s.label))

/-- The slots the codec encodes without loss. -/
def wellFormedSlot (s : Slot) : Prop :=
  s.startMinute < 1440 ∧ s.endMinute < 1440 ∧ slotLineSafe s

instance (s : Slot) : Decidable (parseShape s) := by
  unfold parseShape
  infer_instance

instance (s : Slot) : Decidable (slotLineSafe s) := by
  unfold slotLineSafe
  infer_instance

instance (s : Slot) : Decidable (wellFormedSlot s) := by
  unfold wellFormedSlot
  infer_instance

lemma lineParse_cons (h1 h2 m1 m2 h3 h4 m3 m4 : Char) (rest : Str)
    (htr : jsTrim ('-' :: ' ' :: h1 :: h2 :: ':' :: m1 :: m2 :: '-' :: h3 :: h4 :: ':' ::
        m3 :: m4 :: ' ' :: '|' :: ' ' :: rest) =
      '-' :: ' ' :: h1 :: h2 :: ':' :: m1 :: m2 :: '-' :: h3 :: h4 :: ':' ::
        m3 :: m4 :: ' ' :: '|' :: ' ' :: rest) :
    lineParse ('-' :: ' ' :: h1 :: h2 :: ':' :: m1 :: m2 :: '-' :: h3 :: h4 :: ':' ::
        m3 :: m4 :: ' ' :: '|' :: ' ' :: rest) =
      if h1.isDigit && h2.isDigit && m1.isDigit && m2.isDigit &&
          h3.isDigit && h4.isDigit && m3.isDigit && m4.isDigit &&
          !rest.isEmpty && rest.all isLineChar then
        some { startMinute := (10 * digitVal h1 + digitVal h2) * 60 +
                 (10 * digitVal m1 + digitVal m2),
               endMinute := (10 * digitVal h3 + digitVal h4) * 60 +
                 (10 * digitVal m3 + digitVal m4),
               label := (labelNotes rest).1, notes := (labelNotes rest).2 }
      else none := by
  unfold lineParse
  rw [htr]
  rfl

lemma lineParse_build (st en : Nat) (rest : Str) (hrne : rest ≠ [])
    (hrlc : ∀ c ∈ rest, isLineChar c = true)
    (hrlast : ∀ c, rest.getLast? = some c → isWs c = false) :
    lineParse ('-' :: ' ' :: timeText st ++ '-' :: timeText en ++
        ' ' :: '|' :: ' ' :: rest) =
      some { startMinute := st % 1440, endMinute := en % 1440,
             label := (labelNotes rest).1, notes := (labelNotes rest).2 } := by
  have hLINE : ('-' :: ' ' :: timeText st ++ '-' :: timeText en ++
      ' ' :: '|' :: ' ' :: rest) =
      '-' :: ' ' :: digitChar (st % 1440 / 60 / 10) :: digitChar (st % 1440 / 60 % 10) ::
        ':' :: digitChar (st % 1440 % 60 / 10) :: digitChar (st % 1440 % 60 % 10) ::
        '-' :: digitChar (en % 1440 / 60 / 10) :: digitChar (en % 1440 / 60 % 10) ::
        ':' :: digitChar (en % 1440 % 60 / 10) :: digitChar (en % 1440 % 60 % 10) ::
        ' ' :: '|' :: ' ' :: rest := by
    simp [timeText, twoDigits]
  have htrim : jsTrim ('-' :: ' ' :: timeText st ++ '-' :: timeText en ++
      ' ' :: '|' :: ' ' :: rest) =
      '-' :: ' ' :: timeText st ++ '-' :: timeText en ++ ' ' :: '|' :: ' ' :: rest := by
    apply jsTrim_eq_self
    · intro c hc
      have hcc : '-' = c := by simpa using hc
      subst hcc
      decide
    · intro c hc
      rw [show ('-' :: ' ' :: timeText st ++ '-' :: timeText en ++
          ' ' :: '|' :: ' ' :: rest) =
        ('-' :: ' ' :: timeText st ++ '-' :: timeText en ++ [' ', '|', ' ']) ++ rest
        by simp] at hc
      rw [List.getLast?_append] at hc
      cases hr : rest.getLast? with
      | none =>
        exact absurd (List.getLast?_eq_none_iff.mp hr) hrne
      | some d =>
        rw [hr] at hc
        have hdc : d = c := by simpa using hc
        subst hdc
        exact hrlast d hr
  rw [hLINE] at htrim
  rw [hLINE, lineParse_cons _ _ _ _ _ _ _ _ rest htrim]
  have hcond : ((digitChar (st % 1440 / 60 / 10)).isDigit &&
      (digitChar (st % 1440 / 60 % 10)).isDigit &&
      (digitChar (st % 1440 % 60 / 10)).isDigit &&
      (digitChar (st % 1440 % 60 % 10)).isDigit &&
      (digitChar (en % 1440 / 60 / 10)).isDigit &&
      (digitChar (en % 1440 / 60 % 10)).isDigit &&
      (digitChar (en % 1440 % 60 / 10)).isDigit &&
      (digitChar (en % 1440 % 60 % 10)).isDigit &&
      !rest.isEmpty && rest.all isLineChar) = true := by
    simp only [digitChar_isDigit, Bool.true_and, Bool.and_eq_true,
      Bool.not_eq_true', List.all_eq_true]
    constructor
    · cases rest with
      | nil => exact absurd rfl hrne
      | cons c t => rfl
    · exact hrlc
  rw [if_pos hcond, timeText_parse st, timeText_parse en]

theorem lineParse_slotLine_mod (s : Slot) (h : slotLineSafe s) :
    lineParse (slotLine s) =
      some ⟨s.startMinute % 1440, s.endMinute % 1440, s.label, s.notes⟩ := by
  obtain ⟨⟨hlt, hlc, hlsep, hnt, hncr, hnbsn⟩, hne, htl⟩ := h
  have hlast : ∀ c, s.label.getLast? = some c → isWs c = false := by
    intro c hc
    apply jsTrim_getLast s.label
    rw [hlt]
    exact hc
  by_cases hn0 : s.notes = []
  · have hlab : s.label ≠ [] := by
      rcases hne with h | h
      · exact h
      · exact absurd hn0 h
    have hsl : slotLine s = '-' :: ' ' :: timeText s.startMinute ++
        '-' :: timeText s.endMinute ++ ' ' :: '|' :: ' ' :: s.label := by
      unfold slotLine
      rw [hnt, hn0]
      simp
    rw [hsl, lineParse_build s.startMinute s.endMinute s.label hlab hlc hlast]
    have hlnl : labelNotes s.label = (s.label, ([] : Str)) := by
      unfold labelNotes
      rw [hlsep, hlt]
    rw [hlnl, hn0]
  · have hsl : slotLine s = '-' :: ' ' :: timeText s.startMinute ++
        '-' :: timeText s.endMinute ++ ' ' :: '|' :: ' ' ::
        (s.label ++ (SEP ++ escape s.notes)) := by
      unfold slotLine
      rw [hnt, if_neg (by simp [hn0])]
      simp
    have hEne : escape s.notes ≠ [] := by
      rw [Ne, escape_eq_nil_iff]
      exact hn0
    have hRne : s.label ++ (SEP ++ escape s.notes) ≠ [] := by
      simp [SEP]
    have hRlc : ∀ c ∈ s.label ++ (SEP ++ escape s.notes), isLineChar c = true := by
      intro c hc
      rcases List.mem_append.mp hc with hc | hc
      · exact hlc c hc
      rcases List.mem_append.mp hc with hc | hc
      · simp only [SEP, List.mem_cons, List.not_mem_nil, or_false] at hc
        rcases hc with rfl | rfl | rfl | rfl <;> decide
      · rcases escape_chars s.notes c hc with rfl | rfl | ⟨h1, h2⟩
        · decide
        · decide
        · simp [isLineChar, h2, hncr c h1]
    have hnl : ∀ c, s.notes.getLast? = some c → c ≠ '\n' := by
      intro c hc hcc
      have := jsTrim_getLast s.notes c (by rw [hnt]; exact hc)
      rw [hcc] at this
      simp [isWs] at this
    have hRlast : ∀ c, (s.label ++ (SEP ++ escape s.notes)).getLast? = some c →
        isWs c = false := by
      intro c hc
      rw [show s.label ++ (SEP ++ escape s.notes) =
        (s.label ++ SEP) ++ escape s.notes by simp] at hc
      rw [List.getLast?_append, escape_getLast s.notes hnl] at hc
      cases hns : s.notes.getLast? with
      | none => exact absurd (List.getLast?_eq_none_iff.mp hns) hn0
      | some d =>
        rw [hns] at hc
        have hdc : d = c := by simpa using hc
        subst hdc
        apply jsTrim_getLast s.notes
        rw [hnt]
        exact hns
    rw [hsl, lineParse_build s.startMinute s.endMinute _ hRne hRlc hRlast]
    have hsp : splitAtFirst SEP (s.label ++ (SEP ++ escape s.notes)) =
        some (s.label, escape s.notes) := by
      have hrec := splitAtFirst_reconstruct SEP (escape s.notes) s.label
        (sep_no_early s.label (escape s.notes) hlsep (htl hn0))
      rw [List.append_assoc] at hrec
      exact hrec
    have hln : labelNotes (s.label ++ (SEP ++ escape s.notes)) = (s.label, s.notes) := by
      unfold labelNotes
      rw [hsp]
      show (jsTrim s.label, jsTrim (unescape (escape s.notes))) = (s.label, s.notes)
      rw [unescape_escape s.notes (no_occ_suffix BSN s.notes (by decide) hnbsn),
        hlt, hnt]
    rw [hln]

theorem lineParse_slotLine (s : Slot) (h : wellFormedSlot s) :
    lineParse (slotLine s) = some s := by
  obtain ⟨hs1440, he1440, hsafe⟩ := h
  rw [lineParse_slotLine_mod s hsafe, Nat.mod_eq_of_lt hs1440, Nat.mod_eq_of_lt he1440]

lemma timeText_chars (m : Nat) : ∀ c ∈ timeText m, isLineChar c = true := by
  intro c hc
  simp only [timeText, twoDigits, List.mem_append, List.mem_cons, List.not_mem_nil,
    or_false] at hc
  rcases hc with (rfl | rfl) | rfl | rfl | rfl
  · exact digitChar_lineChar _
  · exact digitChar_lineChar _
  · decide
  · exact digitChar_lineChar _
  · exact digitChar_lineChar _

lemma slotLine_chars (s : Slot) (hlc : ∀ c ∈ s.label, isLineChar c = true)
    (hncr : ∀ c ∈ s.notes, c ≠ '\r') :
    ∀ c ∈ slotLine s, isLineChar c = true := by
  intro c hc
  unfold slotLine at hc
  simp only [List.mem_cons, List.mem_append] at hc
  rcases hc with (((rfl | rfl | hc) | rfl | hc) | rfl | rfl | rfl | hc) | hc
  · decide
  · decide
  · exact timeText_chars s.startMinute c hc
  · decide
  · exact timeText_chars s.endMinute c hc
  · decide
  · decide
  · decide
  · exact hlc c hc
  · split at hc
    · simp at hc
    · rcases List.mem_append.mp hc with hc | hc
      · simp only [SEP, List.mem_cons, List.not_mem_nil, or_false] at hc
        rcases hc with rfl | rfl | rfl | rfl <;> decide
      · rcases escape_chars _ c hc with rfl | rfl | ⟨h1, h2⟩
        · decide
        · decide
        · have hmem : c ∈ s.notes := (jsTrim_isInfix s.notes).subset h1
          simp [isLineChar, h2, hncr c hmem]

lemma splitAtFirst_boundary_block (lines : List Str) (after : Str)
    (h : ∀ l ∈ lines, (∀ c ∈ l, isLineChar c = true) ∧ l.head? ≠ some '#') :
    splitAtFirst BOUNDARY (joinNL (lines ++ [[]]) ++ (BOUNDARY ++ after)) =
      some (joinNL (lines ++ [[]]), after) := by
  cases lines with
  | nil =>
    rw [show joinNL ([] ++ [[]]) = [] from rfl, List.nil_append]
    rw [splitAtFirst_of_headMatches _ _
      ((headMatches_iff _ _).mpr (List.prefix_append _ _)), List.drop_left]
  | cons l ls =>
    have hj : joinNL ((l :: ls) ++ [[]]) = joinNL (l :: ls) ++ ['\n'] := by
      rw [joinNL_append (l :: ls) [[]] (by simp) (by simp)]
      rfl
    rw [hj, List.append_assoc,
      show (['\n'] ++ (BOUNDARY ++ after)) = '\n' :: (BOUNDARY ++ after) from rfl,
      splitAtFirst_boundary_join (l :: ls) after h]

lemma splitLines_joinNL_blank (lines : List Str)
    (h : ∀ l ∈ lines, ∀ c ∈ l, isLineChar c = true) :
    splitLines (joinNL (lines ++ [[]])) = lines ++ [[]] := by
  cases lines with
  | nil => rfl
  | cons l ls =>
    have hj : joinNL ((l :: ls) ++ [[]]) = joinNL (l :: ls) ++ ['\n'] := by
      rw [joinNL_append (l :: ls) [[]] (by simp) (by simp)]
      rfl
    rw [hj, splitLines_join (l :: ls) (by simp) h]

lemma filterMap_lineParse_slotLine (p : List Slot) (h : ∀ s ∈ p, wellFormedSlot s) :
    (p.map slotLine).filterMap lineParse = p := by
  induction p with
  | nil => rfl
  | cons s t ih =>
    rw [List.map_cons,
      List.filterMap_cons_some (lineParse_slotLine s (h s (List.mem_cons_self _ _))),
      ih fun x hx => h x (List.mem_cons_of_mem _ hx)]

lemma sectionBlock_eq {md name rest blk after : Str}
    (h1 : splitAtFirst (sectionHeader name) md = some ([], rest))
    (h2 : splitAtFirst BOUNDARY rest = some (blk, after)) :
    sectionBlock md name = blk := by
  unfold sectionBlock
  rw [h1]
  show (match splitAtFirst BOUNDARY rest with
    | none => rest
    | some (blk, _) => blk) = blk
  rw [h2]

lemma sectionBlock_none (md name : Str)
    (h : splitAtFirst (sectionHeader name) md = none) :
    sectionBlock md name = [] := by
  unfold sectionBlock
  rw [h]

lemma buildMarkdown_decomp (p r : List Slot) (sup : List Str) :
    buildMarkdown p r sup = sectionHeader planName ++
      (joinNL (p.map slotLine ++ [[]]) ++ (BOUNDARY ++ (retroName ++ '\n' ::
        joinNL (r.map slotLine ++ [] :: sectionTitle supName :: (sup ++ [[]]))))) := by
  unfold buildMarkdown
  have harg : [sectionTitle planName] ++ p.map slotLine ++ [[]] ++
      [sectionTitle retroName] ++ r.map slotLine ++ [[]] ++ [sectionTitle supName] ++
      sup ++ [[]] =
      sectionTitle planName :: ((p.map slotLine ++ [[]]) ++ sectionTitle retroName ::
        (r.map slotLine ++ [] :: sectionTitle supName :: (sup ++ [[]]))) := by
    simp
  rw [harg]
  rw [joinNL_cons _ _ (by simp)]
  rw [joinNL_append (p.map slotLine ++ [[]]) _ (by simp) (by simp)]
  rw [joinNL_cons (sectionTitle retroName) _ (by simp)]
  simp [sectionHeader, sectionTitle, BOUNDARY]

lemma parseSection_buildMarkdown_plan (p r : List Slot) (sup : List Str)
    (hp : ∀ s ∈ p, wellFormedSlot s) :
    parseSection (buildMarkdown p r sup) planName = p := by
  have hhead : ∀ l ∈ p.map slotLine,
      (∀ c ∈ l, isLineChar c = true) ∧ l.head? ≠ some '#' := by
    intro l hl
    obtain ⟨s, hs, rfl⟩ := List.mem_map.mp hl
    obtain ⟨-, -, ⟨hlt, hlc, hlsep, hnt, hncr, hnbsn⟩, -, -⟩ := hp s hs
    refine ⟨slotLine_chars s hlc hncr, ?_⟩
    rw [show (slotLine s).head? = some '-' from rfl]
    simp
  have hblock : sectionBlock (buildMarkdown p r sup) planName =
      joinNL (p.map slotLine ++ [[]]) := by
    refine sectionBlock_eq ?_ (splitAtFirst_boundary_block (p.map slotLine)
      (retroName ++ '\n' ::
        joinNL (r.map slotLine ++ [] :: sectionTitle supName :: (sup ++ [[]]))) hhead)
    rw [buildMarkdown_decomp]
    exact splitAtFirst_header planName _
  unfold parseSection
  rw [hblock, splitLines_joinNL_blank _ (fun l hl => (hhead l hl).1),
    List.filterMap_append,
    show ([[]] : List Str).filterMap lineParse = [] from rfl,
    List.append_nil, filterMap_lineParse_slotLine p hp]

lemma splitAtFirst_bsn_none (t : Str)
    (h : ∀ s₂, s₂ <:+ t → headMatches BSN s₂ = false) :
    splitAtFirst BSN t = none := by
  rw [splitAtFirst_eq_none_iff BSN (by decide)]
  intro hinf
  obtain ⟨s₂, hpre, hsuf⟩ := List.infix_iff_prefix_suffix.mp hinf
  exact absurd ((headMatches_iff BSN s₂).mpr hpre)
    (Bool.eq_false_iff.mp (h s₂ hsuf))

lemma isLineChar_ne_cr {c : Char} (h : isLineChar c = true) : c ≠ '\r' := by
  intro hc
  rw [hc] at h
  simp [isLineChar] at h

lemma lineParse_shape (line : Str) (s : Slot) (h : lineParse line = some s) :
    parseShape s := by
  unfold lineParse at h
  split at h
  case _ =>
    rename_i rest heq
    split_ifs at h with hcond
    case _ =>
      simp only [Bool.and_eq_true, List.all_eq_true] at hcond
      obtain ⟨-, hall⟩ := hcond
      injection h with h2
      subst h2
      cases hsp : splitAtFirst SEP rest with
      | none =>
        have hln : labelNotes rest = (jsTrim rest, ([] : Str)) := by
          unfold labelNotes
          rw [hsp]
        refine ⟨?_, ?_, ?_, ?_, ?_, ?_⟩
        · show jsTrim (labelNotes rest).1 = (labelNotes rest).1
          rw [hln]
          exact jsTrim_idem rest
        · show ∀ c ∈ (labelNotes rest).1, isLineChar c = true
          rw [hln]
          intro c hc
          exact hall c ((jsTrim_isInfix rest).subset hc)
        · show splitAtFirst SEP (labelNotes rest).1 = none
          rw [hln]
          exact splitAtFirst_none_of_infix (by decide) hsp (jsTrim_isInfix rest)
        · show jsTrim (labelNotes rest).2 = (labelNotes rest).2
          rw [hln]
          rfl
        · show ∀ c ∈ (labelNotes rest).2, c ≠ '\r'
          rw [hln]
          simp
        · show splitAtFirst BSN (labelNotes rest).2 = none
          rw [hln]
          rfl
      | some pr =>
        obtain ⟨bef, aft⟩ := pr
        obtain ⟨hrest, hbef⟩ := splitAtFirst_eq_some SEP (by decide) rest bef aft hsp
        have hln : labelNotes rest = (jsTrim bef, jsTrim (unescape aft)) := by
          unfold labelNotes
          rw [hsp]
        have hbefpre : bef <+: rest := ⟨SEP ++ aft, by rw [hrest]; simp⟩
        have haftsuf : aft <:+ rest := ⟨bef ++ SEP, by rw [hrest]⟩
        refine ⟨?_, ?_, ?_, ?_, ?_, ?_⟩
        · show jsTrim (labelNotes rest).1 = (labelNotes rest).1
          rw [hln]
          exact jsTrim_idem bef
        · show ∀ c ∈ (labelNotes rest).1, isLineChar c = true
          rw [hln]
          intro c hc
          exact hall c (hbefpre.subset ((jsTrim_isInfix bef).subset hc))
        · show splitAtFirst SEP (labelNotes rest).1 = none
          rw [hln]
          exact splitAtFirst_none_of_infix (by decide) hbef (jsTrim_isInfix bef)
        · show jsTrim (labelNotes rest).2 = (labelNotes rest).2
          rw [hln]
          exact jsTrim_idem _
        · show ∀ c ∈ (labelNotes rest).2, c ≠ '\r'
          rw [hln]
          intro c hc
          rcases unescape_mem aft c ((jsTrim_isInfix _).subset hc) with hc2 | rfl
          · exact isLineChar_ne_cr (hall c (haftsuf.subset hc2))
          · decide
        · show splitAtFirst BSN (labelNotes rest).2 = none
          rw [hln]
          refine splitAtFirst_none_of_infix (by decide) ?_ (jsTrim_isInfix _)
          exact splitAtFirst_bsn_none _ (unescape_no_bsn aft)
  case _ =>
    exact absurd h (by simp)

lemma parseSection_shape (md name : Str) : ∀ s ∈ parseSection md name, parseShape s := by
  intro s hs
  unfold parseSection at hs
  obtain ⟨line, -, hline⟩ := List.mem_filterMap.mp hs
  exact lineParse_shape line s hline

/-- A sample well-formed day document for the round-trip statement. -/
def c5Doc : Str := "## Plan\n- 00:30-01:15 | deep work || focus\n".data

/-- A document whose single Plan entry has out-of-range times (`24:30-25:00`),
matching the line grammar digit-wise but decoding to minutes beyond one day. -/
def c5BadDoc : Str := "## Plan\n- 24:30-25:00 | x\n".data

/-- C5: decode → encode → decode on the Plan section reproduces the decoded
slot list, provided every decoded slot has minutes below 1440 (times rendered
as `HH:MM` wrap modulo one day), a non-blank trimmed payload, and — when notes
are present — a label that does not end in ` ||`; all other shape conditions
(trimmed fields, no separator inside the label, no line terminators, no
literal `\n` escape in notes) hold automatically for every decoded slot.
A document without the section header decodes to the empty list, not an
error. -/
theorem parseSection_roundtrip (md : Str) (retroSlots : List Slot)
    (supLines : List Str)
    (h : ∀ s ∈ parseSection md planName,
      s.startMinute < 1440 ∧ s.endMinute < 1440 ∧
      (s.label ≠ [] ∨ s.notes ≠ []) ∧
      (s.notes ≠ [] → ¬ ([' ', '|', '|'] <:+ s.label))) :
    parseSection (buildMarkdown (parseSection md planName) retroSlots supLines)
        planName = parseSection md planName ∧
    (∀ name, splitAtFirst (sectionHeader name) md = none →
      parseSection md name = []) := by
  constructor
  · apply parseSection_buildMarkdown_plan
    intro s hs
    obtain ⟨h1, h2, h3, h4⟩ := h s hs
    exact ⟨h1, h2, parseSection_shape md planName s hs, h3, h4⟩
  · intro name hn
    unfold parseSection
    rw [sectionBlock_none md name hn]
    rfl

/-- Witness: the round-trip theorem applied to a concrete document whose
single entry carries a label and notes. -/
theorem parseSection_roundtrip_witness :
    (∀ s ∈ parseSection c5Doc planName,
      s.startMinute < 1440 ∧ s.endMinute < 1440 ∧
      (s.label ≠ [] ∨ s.notes ≠ []) ∧
      (s.notes ≠ [] → ¬ ([' ', '|', '|'] <:+ s.label))) ∧
    (parseSection (buildMarkdown (parseSection c5Doc planName) [] []) planName =
        parseSection c5Doc planName ∧
      (∀ name, splitAtFirst (sectionHeader name) c5Doc = none →
        parseSection c5Doc name = [])) :=
  ⟨by decide, parseSection_roundtrip c5Doc [] [] (by decide)⟩

/-- The round-trip claim is false without the in-range-minutes condition: an
entry `- 24:30-25:00 | x` decodes to minutes 1470–1500, is re-encoded as
`- 00:30-01:00 | x`, and decodes again to minutes 30–60. -/
theorem parseSection_roundtrip_cex :
    parseSection (buildMarkdown (parseSection c5BadDoc planName)
        (parseSection c5BadDoc retroName) (parseBlock c5BadDoc supName))
        planName ≠
      parseSection c5BadDoc planName := by decide

/-- A slot ending exactly at end of day. -/
def c10Slot : Slot := ⟨1380, 1440, ['w'], []⟩

/-- C10: a slot with `endMinute = 1440` is rendered by `slotLine` with end
time `00:00` (minutes are reduced modulo 1440), so re-parsing the rendered
line yields `endMinute = 0`, not `1440`: encode-then-decode is not the
identity on such a slot. -/
theorem slotLine_midnight_wrap (s : Slot) (hen : s.endMinute = 1440)
    (hsafe : slotLineSafe s) :
    timeText s.endMinute = ['0', '0', ':', '0', '0'] ∧
    lineParse (slotLine s) = some ⟨s.startMinute % 1440, 0, s.label, s.notes⟩ ∧
    lineParse (slotLine s) ≠ some s := by
  have hmod := lineParse_slotLine_mod s hsafe
  rw [hen] at hmod
  refine ⟨by rw [hen]; decide, ?_, ?_⟩
  · rw [hmod]
  · rw [hmod]
    intro hc
    injection hc with hc2
    have h3 : (1440 : Nat) % 1440 = s.endMinute := congrArg Slot.endMinute hc2
    rw [hen] at h3
    exact absurd h3 (by decide)

/-- Witness: the end-of-day slot `23:00–24:00` round-trips to `23:00–00:00`. -/
theorem slotLine_midnight_wrap_witness :
    c10Slot.endMinute = 1440 ∧ slotLineSafe c10Slot ∧
    (timeText c10Slot.endMinute = ['0', '0', ':', '0', '0'] ∧
     lineParse (slotLine c10Slot) =
       some ⟨c10Slot.startMinute % 1440, 0, c10Slot.label, c10Slot.notes⟩ ∧
     lineParse (slotLine c10Slot) ≠ some c10Slot) :=
  ⟨rfl, by decide, slotLine_midnight_wrap c10Slot rfl (by decide)⟩

end Vault
